import Mathlib

/-!
Verification development for the `t3dlitematica` texture-cache builder
(`src/t3dlitematica/texturepackexport/convert.py`, class `TextureCacheBuilder`).

The Python program is shallowly embedded as executable Lean functions:

* JSON documents are modelled by the inductive type `Json`; Python `dict`
  semantics (assignment keeps the position of an existing key, appends new
  keys; duplicate keys in a JSON literal keep the first position with the
  last value) are modelled by `dictInsert`.
* Resource-pack files are modelled by the directory tree `FsTree`; a path is a
  `List String` of segments, mirroring `pathlib` navigation.
* `json.loads` is modelled by the fuel-indexed recursive-descent parser
  `parseJson` (restricted to integer numerals and the single-character string
  escapes; this covers every document the claims are about).
* Python `str.replace(pat, "")` (a single left-to-right pass removing
  non-overlapping occurrences) is modelled by `pyReplaceDel`.
* Each method of `TextureCacheBuilder` becomes a Lean function of the same
  name (in lowerCamelCase); exceptions become `Except Err`, and the one
  genuinely unbounded recursion (`_resolve_model` following parent chains) is
  fuel-indexed, with fuel exhaustion mapped to the error `Err.fuelOut` so that
  a returned `.ok` corresponds exactly to a terminating Python run.
-/

/-! ## JSON values and Python `dict` semantics -/

inductive Json where
  | null : Json
  | bool (b : Bool) : Json
  | num (n : Int) : Json
  | str (s : String) : Json
  | arr (elems : List Json) : Json
  | obj (kvs : List (String × Json)) : Json

mutual

def jsonBeq : Json → Json → Bool
  | .null, .null => true
  | .bool a, .bool b => a == b
  | .num a, .num b => a == b
  | .str a, .str b => a == b
  | .arr a, .arr b => jsonListBeq a b
  | .obj a, .obj b => jsonKvBeq a b
  | _, _ => false

def jsonListBeq : List Json → List Json → Bool
  | [], [] => true
  | a :: as, b :: bs => jsonBeq a b && jsonListBeq as bs
  | _, _ => false

def jsonKvBeq : List (String × Json) → List (String × Json) → Bool
  | [], [] => true
  | (k, v) :: as, (l, w) :: bs => k == l && jsonBeq v w && jsonKvBeq as bs
  | _, _ => false

end

/-- Python `d[k] = v`: replace the value at an existing key in place (keeping
its position), otherwise append the new key at the end. -/
def dictInsert : List (String × Json) → String → Json → List (String × Json)
  | [], k, v => [(k, v)]
  | (k1, v1) :: rest, k, v =>
    if k1 = k then (k1, v) :: rest else (k1, v1) :: dictInsert rest k v

/-- Python `d[k]` / `d.get(k)` lookup (first match; keys are unique in any
dict the program builds). -/
def getVal? : List (String × Json) → String → Option Json
  | [], _ => none
  | (k1, v1) :: rest, k => if k1 = k then some v1 else getVal? rest k

/-! ## String helpers mirroring the Python string operations used -/

/-- Split a character list at every occurrence of `c` (Python `str.split`). -/
def splitCharAux (c : Char) : List Char → List (List Char)
  | [] => [[]]
  | x :: xs =>
    match splitCharAux c xs with
    | [] => [[]]
    | seg :: segs => if x = c then [] :: seg :: segs else (x :: seg) :: segs

def splitStr (c : Char) (s : String) : List String :=
  (splitCharAux c s.data).map (fun l => String.mk l)

/-- Python `s.split(c)[-1]` (the split list is never empty). -/
def lastSplit (c : Char) (s : String) : String :=
  (splitStr c s).getLastD s

/-- `pat.isPrefixOf l` for character lists, by explicit recursion. -/
def listIsPrefix : List Char → List Char → Bool
  | [], _ => true
  | _ :: _, [] => false
  | p :: ps, c :: cs => p == c && listIsPrefix ps cs

/-- Substring test (Python `pat in s`). -/
def listContainsPat (pat : List Char) : List Char → Bool
  | [] => pat.isEmpty
  | c :: cs => listIsPrefix pat (c :: cs) || listContainsPat pat cs

/-- Python `s.replace(pat, "")` for a non-empty `pat`: one left-to-right pass
deleting non-overlapping occurrences.  Structurally recursive on a fuel that
is initialized to the input length (every step consumes at least one
character, so the fuel never runs out on the initial call).  (For empty `pat`
the Python result would differ; the program only uses the non-empty pattern
`"minecraft:"`.) -/
def pyReplaceDelAux (pat : List Char) : Nat → List Char → List Char
  | 0, l => l
  | _ + 1, [] => []
  | n + 1, c :: cs =>
    if pat ≠ [] ∧ listIsPrefix pat (c :: cs) = true then
      pyReplaceDelAux pat n (List.drop (pat.length - 1) cs)
    else
      c :: pyReplaceDelAux pat n cs

def pyReplaceDel (pat s : String) : String :=
  String.mk (pyReplaceDelAux pat.data s.data.length s.data)

def strStartsWithHash (s : String) : Bool :=
  match s.data with
  | c :: _ => c = '#'
  | [] => false

/-- Append an extension to the last path segment (`f"{p}.json"` combined with
`pathlib` splitting the slashes of `p`). -/
def withExt (ext : String) : List String → List String
  | [] => []
  | [x] => [x ++ ext]
  | x :: y :: rest => x :: withExt ext (y :: rest)

/-! ## A small JSON parser modelling `json.loads`

Grammar restrictions relative to full JSON: numerals are (optionally signed)
integers, and string escapes are the single-character ones
(`\" \\ \/ \n \t \r \b \f`).  Objects are built with `dictInsert`, giving
Python's duplicate-key semantics (first position, last value). -/

def skipWs : List Char → List Char
  | [] => []
  | c :: cs =>
    if c = ' ' ∨ c = '\t' ∨ c = '\n' ∨ c = '\r' then skipWs cs else c :: cs

def escChar (c : Char) : Option Char :=
  if c = '"' then some '"'
  else if c = '\\' then some '\\'
  else if c = '/' then some '/'
  else if c = 'n' then some '\n'
  else if c = 't' then some '\t'
  else if c = 'r' then some '\r'
  else if c = 'b' then some (Char.ofNat 8)
  else if c = 'f' then some (Char.ofNat 12)
  else none

/-- Parse the body of a string literal (opening quote already consumed);
returns the content and the remaining input after the closing quote. -/
def pStrAux : List Char → Option (List Char × List Char)
  | [] => none
  | '"' :: rest => some ([], rest)
  | '\\' :: e :: rest =>
    match escChar e with
    | none => none
    | some c =>
      match pStrAux rest with
      | none => none
      | some (s, r) => some (c :: s, r)
  | '\\' :: [] => none
  | c :: rest =>
    match pStrAux rest with
    | none => none
    | some (s, r) => some (c :: s, r)

def headDigit : List Char → Bool
  | [] => false
  | c :: _ => c.isDigit

def takeDigits : List Char → List Char × List Char
  | [] => ([], [])
  | c :: cs =>
    if c.isDigit then
      match takeDigits cs with
      | (ds, rest) => (c :: ds, rest)
    else ([], c :: cs)

def digitsToNat (ds : List Char) : Nat :=
  ds.foldl (fun a c => a * 10 + (c.toNat - 48)) 0

def pNat (cs : List Char) : Option (Nat × List Char) :=
  match takeDigits cs with
  | ([], _) => none
  | (ds, rest) => some (digitsToNat ds, rest)

/-- Python duplicate-key object building: fold `dictInsert` over the members
in document order. -/
def mkObj (pairs : List (String × Json)) : List (String × Json) :=
  pairs.foldl (fun d kv => dictInsert d kv.1 kv.2) []

mutual

def pVal : Nat → List Char → Option (Json × List Char)
  | 0, _ => none
  | n + 1, cs0 =>
    match skipWs cs0 with
    | '"' :: cs =>
      match pStrAux cs with
      | none => none
      | some (s, rest) => some (Json.str (String.mk s), rest)
    | '\x7b' :: cs =>
      match skipWs cs with
      | '\x7d' :: rest => some (Json.obj [], rest)
      | cs1 =>
        match pMembers n cs1 with
        | none => none
        | some (pairs, rest) => some (Json.obj (mkObj pairs), rest)
    | '[' :: cs =>
      match skipWs cs with
      | ']' :: rest => some (Json.arr [], rest)
      | cs1 =>
        match pElems n cs1 with
        | none => none
        | some (vs, rest) => some (Json.arr vs, rest)
    | 't' :: 'r' :: 'u' :: 'e' :: cs => some (Json.bool true, cs)
    | 'f' :: 'a' :: 'l' :: 's' :: 'e' :: cs => some (Json.bool false, cs)
    | 'n' :: 'u' :: 'l' :: 'l' :: cs => some (Json.null, cs)
    | '-' :: cs =>
      match pNat cs with
      | none => none
      | some (m, rest) => some (Json.num (-(m : Int)), rest)
    | cs =>
      if headDigit cs then
        match pNat cs with
        | none => none
        | some (m, rest) => some (Json.num (m : Int), rest)
      else none

def pMembers : Nat → List Char → Option (List (String × Json) × List Char)
  | 0, _ => none
  | n + 1, cs =>
    match skipWs cs with
    | '"' :: cs1 =>
      match pStrAux cs1 with
      | none => none
      | some (k, cs2) =>
        match skipWs cs2 with
        | ':' :: cs3 =>
          match pVal n cs3 with
          | none => none
          | some (v, cs4) =>
            match skipWs cs4 with
            | ',' :: cs5 =>
              match pMembers n cs5 with
              | none => none
              | some (ps, rest) => some ((String.mk k, v) :: ps, rest)
            | '\x7d' :: cs5 => some ([(String.mk k, v)], cs5)
            | _ => none
        | _ => none
    | _ => none

def pElems : Nat → List Char → Option (List Json × List Char)
  | 0, _ => none
  | n + 1, cs =>
    match pVal n cs with
    | none => none
    | some (v, cs1) =>
      match skipWs cs1 with
      | ',' :: cs2 =>
        match pElems n cs2 with
        | none => none
        | some (vs, rest) => some (v :: vs, rest)
      | ']' :: cs2 => some ([v], cs2)
      | _ => none

end

/-- `json.loads`: parse a whole document, allowing trailing whitespace only. -/
def parseJson (s : String) : Option Json :=
  match pVal (s.data.length + 2) s.data with
  | none => none
  | some (j, rest) => if skipWs rest = [] then some j else none

/-! ## Filesystem model

A resource pack after `zipfile.extractall` is the entry list of its temporary
directory.  Paths are segment lists; `pathlib`'s `/` on a string containing
slashes splits it into segments, which `withExt`/`splitStr` reproduce. -/

inductive FsTree where
  | file (content : String) : FsTree
  | dir (entries : List (String × FsTree)) : FsTree

def lookupEntry : List (String × FsTree) → String → Option FsTree
  | [], _ => none
  | (n, t) :: rest, k => if n = k then some t else lookupEntry rest k

/-- Navigate a path inside a tree (`Path` navigation plus `exists()`:
`none` when some segment is missing or an intermediate node is a file). -/
def getInTree : List String → FsTree → Option FsTree
  | [], t => some t
  | _ :: _, .file _ => none
  | seg :: rest, .dir es =>
    match lookupEntry es seg with
    | none => none
    | some t => getInTree rest t

/-- Navigate a path from a directory given by its entry list. -/
def getEntry (es : List (String × FsTree)) (p : List String) : Option FsTree :=
  getInTree p (.dir es)

def existsEntry (es : List (String × FsTree)) (p : List String) : Bool :=
  (getEntry es p).isSome

def FsTree.isDir : FsTree → Bool
  | .file _ => false
  | .dir _ => true

/-! ## Errors

Every Python exception that aborts the build is mapped to a constructor;
`fuelOut` marks exhaustion of the recursion fuel of `resolveModel` (a run of
the Python code that terminates is a run with enough fuel). -/

inductive Err where
  | unsupportedFormat : Err   -- ValueError in _extract_packs
  | assetRootNotFound : Err   -- FileNotFoundError in _find_minecraft_path
  | ioError : Err             -- open()/copy failures on directories
  | parseError : Err          -- json.JSONDecodeError
  | keyError : Err            -- KeyError
  | typeError : Err           -- TypeError
  | attrError : Err           -- AttributeError
  | fuelOut : Err
deriving DecidableEq, Repr

/-! ## Pack extraction (`_extract_packs`, `_find_minecraft_path`) -/

/-- Caller-supplied resource pack: the `pathlib` suffix of its path and the
directory content its archive extracts to. -/
structure ResourcePackSrc where
  suffix : String
  entries : List (String × FsTree)

/-- An entry of `self._extracted_packs`: extracted content, the relative
asset-root path returned by `_find_minecraft_path`, and the identity of the
temporary directory made for it (its index). -/
structure ExtractedPack where
  entries : List (String × FsTree)
  mc : List String
  tmp : Nat

/-- `_find_minecraft_path`: note that it tests `(path / "assets").exists()`
(resp. `(child / "assets").exists()`) but returns the `assets/minecraft`
path without checking that the `minecraft` directory itself exists. -/
def findMinecraftPath (es : List (String × FsTree)) : Option (List String) :=
  if existsEntry es ["assets"] then some (["assets", "minecraft"])
  else
    match es.find? (fun e => e.2.isDir && existsEntry [e] [e.1, "assets"]) with
    | some e => some ([e.1, "assets", "minecraft"])
    | none => none

/-- `_extract_packs`, threading the temp-directory ids that were created and
the packs that were registered in `self._extracted_packs`.  The temp dir is
created (`mkdtemp`) before the asset root is located; on a locate failure the
pack is never registered, though its temp dir exists.  (`extractall` itself
is assumed to succeed — the pack's `entries` are the tree it produces; a
corrupt archive would fail at the same program point as a missing asset
root, with the same not-yet-registered temp directory.) -/
def extractPacks : List ResourcePackSrc → Nat →
    List Nat × List ExtractedPack × Option Err
  | [], _ => ([], [], none)
  | p :: rest, i =>
    if p.suffix = ".zip" then
      match findMinecraftPath p.entries with
      | none => ([i], [], some .assetRootNotFound)
      | some mc =>
        match extractPacks rest (i + 1) with
        | (created, reg, e) => (i :: created, ⟨p.entries, mc, i⟩ :: reg, e)
    else ([], [], some .unsupportedFormat)

/-! ## Builder state and generic JSON-operation semantics -/

/-- Relevant mutable state of a `TextureCacheBuilder` during `build`, plus an
event log of the texture-file copies performed. -/
structure CopyEvent where
  ref : String
  srcPack : Nat
  dest : List String
deriving DecidableEq, Repr

structure BState where
  result : List (String × Json)
  copied : List String
  copyLog : List CopyEvent

def initState : BState :=
  { result := [("models", Json.obj [])], copied := [], copyLog := [] }

/-- Python `k in j` for the JSON value `j`: key membership for a dict,
element equality for a list, substring test for a string, `TypeError`
otherwise. -/
def jsonHasKeyE (j : Json) (k : String) : Except Err Bool :=
  match j with
  | .obj kvs => .ok (getVal? kvs k).isSome
  | .arr xs => .ok (xs.any (fun x => jsonBeq x (Json.str k)))
  | .str s => .ok (listContainsPat k.data s.data)
  | _ => .error .typeError

/-- Python `j[k]` for a string key: dict lookup (`KeyError` when missing),
`TypeError` on any other value. -/
def jsonGetItem (j : Json) (k : String) : Except Err Json :=
  match j with
  | .obj kvs =>
    match getVal? kvs k with
    | some v => .ok v
    | none => .error .keyError
  | _ => .error .typeError

/-- Python `j.values()`: dicts only (`AttributeError` otherwise). -/
def jsonValuesE (j : Json) : Except Err (List Json) :=
  match j with
  | .obj kvs => .ok (kvs.map Prod.snd)
  | _ => .error .attrError

/-- Python `for x in j`: list elements, dict keys, the characters of a string
as one-character strings, `TypeError` otherwise. -/
def jsonIterE (j : Json) : Except Err (List Json) :=
  match j with
  | .arr xs => .ok xs
  | .obj kvs => .ok (kvs.map (fun kv => Json.str kv.1))
  | .str s => .ok (s.data.map (fun c => Json.str (String.mk [c])))
  | _ => .error .typeError

/-- Fold an `Except`-returning step over a list, stopping at the first
error (Python loop with exceptions propagating). -/
def foldE {α σ : Type} (f : α → σ → Except Err σ) : List α → σ → Except Err σ
  | [], s => .ok s
  | x :: xs, s =>
    match f x s with
    | .error e => .error e
    | .ok s1 => foldE f xs s1

/-! ## Reference and path derivation used by `_resolve_model` and
`_copy_texture` -/

/-- `model_ref.split(":")[-1]` — strip a namespace prefix. -/
def refPath (ref : String) : String := lastSplit ':' ref

/-- `model_path.split("/")[-1]` — the short key of a model path. -/
def shortOfPath (mp : String) : String := lastSplit '/' mp

/-- The short key derived from a raw reference string. -/
def shortKeyOfRef (ref : String) : String := shortOfPath (refPath ref)

/-- Relative path of `models/<model_path>.json` under the asset root. -/
def modelRelSegs (mp : String) : List String :=
  "models" :: withExt (".json") (splitStr '/' mp)

def modelRelOfRef (ref : String) : List String := modelRelSegs (refPath ref)

/-- Relative path of `textures/<tex_ref>.png` under the asset root (also the
destination path of the copy inside the cache directory). -/
def texRelSegs (ref : String) : List String :=
  "textures" :: withExt (".png") (splitStr '/' ref)

/-- Relative path of `blockstates/<name>.json` under the asset root. -/
def bsRelSegs (name : String) : List String :=
  ["blockstates", name ++ ".json"]

/-- The first pack (in priority order) in which the given relative path
exists (`Path.exists()`, whether file or directory). -/
def firstWithEntry : List ExtractedPack → List String → Option ExtractedPack
  | [], _ => none
  | pk :: rest, rel =>
    match getEntry pk.entries (pk.mc ++ rel) with
    | some _ => some pk
    | none => firstWithEntry rest rel

/-! ## `_copy_texture` -/

/-- The scan loop of `_copy_texture`: the first pack whose
`textures/<ref>.png` exists wins; copying from a directory raises.  A copy is
recorded in the log and the reference memoized; a miss in every pack leaves
the state unchanged. -/
def ctLoop : List ExtractedPack → String → BState → Except Err BState
  | [], _, s => .ok s
  | pk :: rest, ref, s =>
    match getEntry pk.entries (pk.mc ++ texRelSegs ref) with
    | some (.file _) =>
      .ok { s with
              copied := s.copied ++ [ref],
              copyLog := s.copyLog ++ [⟨ref, pk.tmp, texRelSegs ref⟩] }
    | some (.dir _) => .error .ioError
    | none => ctLoop rest ref s

def copyTexture (packs : List ExtractedPack) (ref : String) (s : BState) :
    Except Err BState :=
  if s.copied.contains ref = true then .ok s else ctLoop packs ref s

/-- The texture-copy loop of `_resolve_model`: every value of the "textures"
dict must be a string (`startswith` fails otherwise); values starting with
"#" are skipped, the rest are handed to `_copy_texture`. -/
def copyTexturesOf (packs : List ExtractedPack) (cleaned : Json)
    (s : BState) : Except Err BState :=
  match jsonHasKeyE cleaned "textures" with
  | .error e => .error e
  | .ok false => .ok s
  | .ok true =>
    match jsonGetItem cleaned "textures" with
    | .error e => .error e
    | .ok tj =>
      match jsonValuesE tj with
      | .error e => .error e
      | .ok vals =>
        foldE
          (fun v s =>
            match v with
            | Json.str r =>
              if strStartsWithHash r then .ok s else copyTexture packs r s
            | _ => .error .attrError)
          vals s

/-! ## The `sculk_sensor` UV patch -/

def uvPatchValue : Json :=
  Json.arr [Json.num 0, Json.num 0, Json.num 16, Json.num 8]

/-- One face of the patch: `if face in elem.get("faces", {}):
elem["faces"][face]["uv"] = [0, 0, 16, 8]`. -/
def patchFace (ekvs : List (String × Json)) (face : String) :
    Except Err (List (String × Json)) :=
  let faces := match getVal? ekvs "faces" with
               | some j => j
               | none => Json.obj []
  match jsonHasKeyE faces face with
  | .error e => .error e
  | .ok false => .ok ekvs
  | .ok true =>
    match faces with
    | .obj fkvs =>
      match getVal? fkvs face with
      | some (.obj g) =>
        .ok (dictInsert ekvs "faces"
              (Json.obj (dictInsert fkvs face
                (Json.obj (dictInsert g "uv" uvPatchValue)))))
      | some _ => .error .typeError
      | none => .error .keyError
    | _ => .error .typeError

def patchElem (e : Json) : Except Err Json :=
  match e with
  | .obj ekvs =>
    match patchFace ekvs "north" with
    | .error er => .error er
    | .ok e1 =>
      match patchFace e1 "east" with
      | .error er => .error er
      | .ok e2 =>
        match patchFace e2 "south" with
        | .error er => .error er
        | .ok e3 =>
          match patchFace e3 "west" with
          | .error er => .error er
          | .ok e4 => .ok (Json.obj e4)
  | _ => .error .attrError

def patchElems : List Json → Except Err (List Json)
  | [] => .ok []
  | e :: rest =>
    match patchElem e with
    | .error er => .error er
    | .ok e1 =>
      match patchElems rest with
      | .error er => .error er
      | .ok r => .ok (e1 :: r)

/-- The special `sculk_sensor` handling of `_resolve_model`, applied to the
cleaned document when the short key matches. -/
def sculkPatch (shortName : String) (cleaned : Json) : Except Err Json :=
  if shortName = "sculk_sensor" then
    match jsonHasKeyE cleaned "elements" with
    | .error e => .error e
    | .ok false => .ok cleaned
    | .ok true =>
      match jsonGetItem cleaned "elements" with
      | .error e => .error e
      | .ok elems =>
        match elems with
        | .arr xs =>
          match patchElems xs with
          | .error e => .error e
          | .ok xs1 =>
            match cleaned with
            | .obj ckvs => .ok (Json.obj (dictInsert ckvs "elements" (Json.arr xs1)))
            | _ => .error .typeError
        | .obj [] => .ok cleaned
        | .str s => if s.data = [] then .ok cleaned else .error .attrError
        | .obj (_ :: _) => .error .attrError
        | _ => .error .typeError
  else .ok cleaned

/-! ## `_resolve_model` -/

/-- `self.result["models"][short_name] = cleaned`: a `KeyError` if the
top-level "models" key is gone, a `TypeError` if its value does not support
string-key assignment. -/
def storeModel (shortName : String) (v : Json) (s : BState) :
    Except Err BState :=
  match getVal? s.result "models" with
  | none => .error .keyError
  | some (Json.obj m) =>
    .ok { s with result := dictInsert s.result "models" (Json.obj (dictInsert m shortName v)) }
  | some _ => .error .typeError

/-- The parent step of `_resolve_model`: `if "parent" in model_data:
self._resolve_model(model_data["parent"])`, with `recur` the recursive
call. -/
def rmParent (recur : Json → BState → Except Err BState) (modelData : Json)
    (s : BState) : Except Err BState :=
  match jsonHasKeyE modelData "parent" with
  | .error e => .error e
  | .ok false => .ok s
  | .ok true =>
    match jsonGetItem modelData "parent" with
    | .error e => .error e
    | .ok pj => recur pj s

/-- The pack-scan loop of `_resolve_model`, parameterized by the recursive
call used for the parent reference (the resolver itself at one less fuel).
Order of operations per the source: read and parse the raw text, resolve the
parent first if declared, re-parse the raw text with namespace prefixes
textually removed, copy the referenced textures, apply the `sculk_sensor`
patch, store under the short key, and stop scanning. -/
def rmLoop (recur : Json → BState → Except Err BState)
    (packs : List ExtractedPack) (shortName : String) (rel : List String) :
    List ExtractedPack → BState → Except Err BState
  | [], s => .ok s
  | pk :: rest, s =>
    match getEntry pk.entries (pk.mc ++ rel) with
    | none => rmLoop recur packs shortName rel rest s
    | some (.dir _) => .error .ioError
    | some (.file raw) =>
      match parseJson raw with
      | none => .error .parseError
      | some modelData =>
        match rmParent recur modelData s with
        | .error e => .error e
        | .ok s1 =>
          match parseJson (pyReplaceDel ("minecraft:") raw) with
          | none => .error .parseError
          | some cleaned =>
            match copyTexturesOf packs cleaned s1 with
            | .error e => .error e
            | .ok s2 =>
              match sculkPatch shortName cleaned with
              | .error e => .error e
              | .ok patched => storeModel shortName patched s2

/-- `_resolve_model`.  The argument is the raw reference value taken from a
blockstate or parent field (any JSON value; non-strings raise when `.split`
is attempted).  Memoized on the short key before any pack is scanned. -/
def resolveModel (packs : List ExtractedPack) :
    Nat → Json → BState → Except Err BState
  | 0, _, _ => .error .fuelOut
  | fuel + 1, refJ, s =>
    match refJ with
    | Json.str ref =>
      let shortName := shortKeyOfRef ref
      match getVal? s.result "models" with
      | none => .error .keyError
      | some mj =>
        match jsonHasKeyE mj shortName with
        | .error e => .error e
        | .ok true => .ok s
        | .ok false =>
          rmLoop (resolveModel packs fuel) packs shortName
            (modelRelOfRef ref) packs s
    | _ => .error .attrError

/-! ## `_extract_model_refs` and `_shorten_model_refs` -/

/-- Python set insertion, modelled as an order-preserving deduplicated list
(iteration order of a Python `set` is unspecified; first-insertion order is
the fixed order of this model). -/
def addRef (refs : List Json) (v : Json) : List Json :=
  if refs.any (fun r => jsonBeq r v) then refs else refs ++ [v]

/-- `refs.add(v["model"])` for each element of a list-valued variant/apply. -/
def refsFromList (refs : List Json) : List Json → Except Err (List Json)
  | [] => .ok refs
  | x :: xs =>
    match jsonGetItem x "model" with
    | .error e => .error e
    | .ok m => refsFromList (addRef refs m) xs

/-- One variant (or one "apply" value): a dict contributes its "model"; a
list contributes each element's "model"; anything else is skipped. -/
def refsFromGroup (refs : List Json) (v : Json) : Except Err (List Json) :=
  match v with
  | .obj _ =>
    match jsonGetItem v "model" with
    | .error e => .error e
    | .ok m => .ok (addRef refs m)
  | .arr xs => refsFromList refs xs
  | _ => .ok refs

def refsFromGroups (refs : List Json) : List Json → Except Err (List Json)
  | [] => .ok refs
  | v :: vs =>
    match refsFromGroup refs v with
    | .error e => .error e
    | .ok r1 => refsFromGroups r1 vs

/-- The multipart loop: `part["apply"]` of each part feeds the same group
handling. -/
def refsFromParts (refs : List Json) : List Json → Except Err (List Json)
  | [] => .ok refs
  | p :: ps =>
    match jsonGetItem p "apply" with
    | .error e => .error e
    | .ok ad =>
      match refsFromGroup refs ad with
      | .error e => .error e
      | .ok r1 => refsFromParts r1 ps

/-- `_extract_model_refs`. -/
def extractModelRefs (bs : Json) : Except Err (List Json) :=
  match jsonHasKeyE bs "variants" with
  | .error e => .error e
  | .ok hv =>
    let step1 : Except Err (List Json) :=
      if hv then
        match jsonGetItem bs "variants" with
        | .error e => .error e
        | .ok vj =>
          match jsonValuesE vj with
          | .error e => .error e
          | .ok vals => refsFromGroups [] vals
      else .ok []
    match step1 with
    | .error e => .error e
    | .ok refs1 =>
      match jsonHasKeyE bs "multipart" with
      | .error e => .error e
      | .ok false => .ok refs1
      | .ok true =>
        match jsonGetItem bs "multipart" with
        | .error e => .error e
        | .ok mj =>
          match jsonIterE mj with
          | .error e => .error e
          | .ok parts => refsFromParts refs1 parts

/-- Rewrite one variant (or "apply" value) in place:
`v["model"] = v["model"].split("/")[-1]`. -/
def shortenGroup (v : Json) : Except Err Json :=
  match v with
  | .obj kvs =>
    match getVal? kvs "model" with
    | some (.str ms) =>
      .ok (Json.obj (dictInsert kvs "model" (Json.str (lastSplit '/' ms))))
    | some _ => .error .attrError
    | none => .error .keyError
  | .arr xs =>
    match shortenGroupList xs with
    | .error e => .error e
    | .ok xs1 => .ok (Json.arr xs1)
  | _ => .ok v
where
  shortenGroupList : List Json → Except Err (List Json)
    | [] => .ok []
    | x :: rest =>
      match x with
      | .obj kvs =>
        match getVal? kvs "model" with
        | some (.str ms) =>
          match shortenGroupList rest with
          | .error e => .error e
          | .ok r =>
            .ok (Json.obj (dictInsert kvs "model" (Json.str (lastSplit '/' ms))) :: r)
        | some _ => .error .attrError
        | none => .error .keyError
      | _ => .error .typeError

def mapValuesE (f : Json → Except Err Json) :
    List (String × Json) → Except Err (List (String × Json))
  | [] => .ok []
  | (k, v) :: rest =>
    match f v with
    | .error e => .error e
    | .ok v1 =>
      match mapValuesE f rest with
      | .error e => .error e
      | .ok r => .ok ((k, v1) :: r)

def mapPartsE : List Json → Except Err (List Json)
  | [] => .ok []
  | p :: ps =>
    match p with
    | .obj pkvs =>
      match getVal? pkvs "apply" with
      | none => .error .keyError
      | some ad =>
        match shortenGroup ad with
        | .error e => .error e
        | .ok ad1 =>
          match mapPartsE ps with
          | .error e => .error e
          | .ok r => .ok (Json.obj (dictInsert pkvs "apply" ad1) :: r)
    | _ => .error .typeError

/-- The "variants" pass of `_shorten_model_refs` (pure rebuild of the
in-place mutation). -/
def shortenVariants (bs : Json) : Except Err Json :=
  match jsonGetItem bs "variants" with
  | .error e => .error e
  | .ok vj =>
    match vj with
    | .obj vkvs =>
      match mapValuesE shortenGroup vkvs with
      | .error e => .error e
      | .ok vkvs1 =>
        match bs with
        | .obj bkvs => .ok (Json.obj (dictInsert bkvs "variants" (Json.obj vkvs1)))
        | _ => .error .typeError
    | .str s => if s.data = [] then .ok bs else .error .typeError
    | _ => .error .typeError

/-- The "multipart" pass of `_shorten_model_refs`. -/
def shortenMultipart (bs1 : Json) : Except Err Json :=
  match jsonHasKeyE bs1 "multipart" with
  | .error e => .error e
  | .ok false => .ok bs1
  | .ok true =>
    match jsonGetItem bs1 "multipart" with
    | .error e => .error e
    | .ok mj =>
      match mj with
      | .arr parts =>
        match mapPartsE parts with
        | .error e => .error e
        | .ok parts1 =>
          match bs1 with
          | .obj bkvs => .ok (Json.obj (dictInsert bkvs "multipart" (Json.arr parts1)))
          | _ => .error .typeError
      | .obj [] => .ok bs1
      | .obj (_ :: _) => .error .typeError
      | .str s => if s.data = [] then .ok bs1 else .error .typeError
      | _ => .error .typeError

def shortenModelRefs (bs : Json) : Except Err Json :=
  match jsonHasKeyE bs "variants" with
  | .error e => .error e
  | .ok hv =>
    match (if hv then shortenVariants bs else .ok bs) with
    | .error e => .error e
    | .ok bs1 => shortenMultipart bs1

/-! ## `_resolve_block`, `_resolve_blocks`, `build` -/

/-- The pack-scan loop of `_resolve_block`: the first pack whose
`blockstates/<name>.json` exists is used exclusively; its parsed document
drives model resolution, is rewritten to short keys, stored under the block
name, and the scan stops.  A miss in every pack stores nothing. -/
def rbLoop (packs : List ExtractedPack) (fuel : Nat) (name : String) :
    List ExtractedPack → BState → Except Err BState
  | [], s => .ok s
  | pk :: rest, s =>
    match getEntry pk.entries (pk.mc ++ bsRelSegs name) with
    | none => rbLoop packs fuel name rest s
    | some (.dir _) => .error .ioError
    | some (.file raw) =>
      match parseJson raw with
      | none => .error .parseError
      | some bsDoc =>
        match extractModelRefs bsDoc with
        | .error e => .error e
        | .ok refs =>
          match foldE (resolveModel packs fuel) refs s with
          | .error e => .error e
          | .ok s1 =>
            match shortenModelRefs bsDoc with
            | .error e => .error e
            | .ok shortened =>
              .ok { s1 with result := dictInsert s1.result name shortened }

def resolveBlock (packs : List ExtractedPack) (fuel : Nat) (name : String)
    (s : BState) : Except Err BState :=
  rbLoop packs fuel name packs s

/-- `sorted(self.block_names)`: lexicographic order, independent of the
caller-supplied iteration order. -/
def sortNames (ns : List String) : List String :=
  List.insertionSort (fun a b => a ≤ b) ns

/-- `_resolve_blocks` (the progress bar is a pure side channel and is not
modelled). -/
def resolveBlocks (packs : List ExtractedPack) (fuel : Nat)
    (names : List String) (s : BState) : Except Err BState :=
  foldE (resolveBlock packs fuel) (sortNames names) s

/-- The observable outcome of one `build` call: the final state (whose
`result` is what `json.dump` serializes to `textures.json` and whose
`copyLog` is the set of texture files copied), plus the temp directories
created by `mkdtemp` and the ones removed by `_cleanup`. -/
structure BuildOutcome where
  outcome : Except Err BState
  created : List Nat
  removed : List Nat

/-- `build` (as invoked by `__init__`): extract all packs, resolve the block
names in sorted order, and unconditionally clean up every *registered*
temp directory (`self._extracted_packs`) on the way out. -/
def buildTextureCache (names : List String) (rps : List ResourcePackSrc)
    (fuel : Nat) : BuildOutcome :=
  match extractPacks rps 0 with
  | (created, reg, extErr) =>
    let removed := reg.map ExtractedPack.tmp
    match extErr with
    | some e => { outcome := .error e, created := created, removed := removed }
    | none =>
      match resolveBlocks reg fuel names initState with
      | .error e => { outcome := .error e, created := created, removed := removed }
      | .ok s => { outcome := .ok s, created := created, removed := removed }

/-! ## Concrete inputs used by witnesses and counterexamples -/

/-- A pack layout with only an `assets` directory that has no `minecraft`
child: `_find_minecraft_path` still returns the `assets/minecraft` path. -/
def c6tree : List (String × FsTree) :=
  [("assets", FsTree.dir [("foobar", FsTree.dir [])])]

/-- A pack whose content sits under a wrapper directory. -/
def c6wrap : List (String × FsTree) :=
  [("wrap", FsTree.dir [("assets", FsTree.dir [])])]

/-- Raw model text whose single texture value interleaves two copies of the
namespace prefix: one deletion pass leaves a fresh occurrence behind. -/
def c7raw : String :=
  "\x7b\"textures\": \x7b\"a\": \"minecraftminecraft::x\"\x7d\x7d"

def c7pack0 : ExtractedPack :=
  ⟨[("assets", FsTree.dir [("minecraft", FsTree.dir [
      ("models", FsTree.dir [("block", FsTree.dir [
        ("weird.json", FsTree.file c7raw)])])])])],
    ["assets", "minecraft"], 0⟩

def c7packs : List ExtractedPack := [c7pack0]

/-- The cleaned document actually stored for `c7raw`. -/
def c7stored : Json :=
  Json.obj [("textures", Json.obj [("a", Json.str ("minecraft:x"))])]

def blockstoneA : String :=
  "\x7b\"variants\": \x7b\"\": \x7b\"model\": \"block/a\"\x7d\x7d\x7d"

def blockstoneB : String :=
  "\x7b\"variants\": \x7b\"\": \x7b\"model\": \"block/b\"\x7d\x7d\x7d"

def packStoneA : ExtractedPack :=
  ⟨[("assets", FsTree.dir [("minecraft", FsTree.dir [
      ("blockstates", FsTree.dir [("stone.json", FsTree.file blockstoneA)])])])],
    ["assets", "minecraft"], 0⟩

def packStoneB : ExtractedPack :=
  ⟨[("assets", FsTree.dir [("minecraft", FsTree.dir [
      ("blockstates", FsTree.dir [("stone.json", FsTree.file blockstoneB)])])])],
    ["assets", "minecraft"], 1⟩

/-- What pack A's `stone` blockstate resolves and shortens to. -/
def stoneShortA : Json :=
  Json.obj [("variants", Json.obj [("", Json.obj [("model", Json.str ("a"))])])]

/-- The parse of `blockstoneA`. -/
def stoneDocA : Json :=
  Json.obj [("variants", Json.obj [("", Json.obj [("model", Json.str ("block/a"))])])]

/-- A registered pack that defines only the block `air` (used to exercise
absence of other blocks). -/
def c9reg : List ExtractedPack :=
  [⟨[("assets", FsTree.dir [("minecraft", FsTree.dir [
      ("blockstates", FsTree.dir [("air.json", FsTree.file ("\x7b\x7d"))])])])],
    ["assets", "minecraft"], 0⟩]

def c9pack : ResourcePackSrc :=
  ⟨".zip", [("assets", FsTree.dir [("minecraft", FsTree.dir [])])]⟩

/-- Blockstate text used for a block literally named `models`. -/
def c10bsRaw : String :=
  "\x7b\"variants\": \x7b\"\": \x7b\"model\": \"block/weird\"\x7d\x7d\x7d"

def c10weirdRaw : String := "\x7b\"textures\": \x7b\"a\": \"#b\"\x7d\x7d"

def c10pack0 : ExtractedPack :=
  ⟨[("assets", FsTree.dir [("minecraft", FsTree.dir [
      ("blockstates", FsTree.dir [("models.json", FsTree.file c10bsRaw)]),
      ("models", FsTree.dir [("block", FsTree.dir [
        ("weird.json", FsTree.file c10weirdRaw)])])])])],
    ["assets", "minecraft"], 0⟩

def c10packs : List ExtractedPack := [c10pack0]

/-- The shortened form of `c10bsRaw`. -/
def c10shortened : Json :=
  Json.obj [("variants", Json.obj [("", Json.obj [("model", Json.str ("weird"))])])]

/-- A parent/child model pair: `block/child` declares parent
`minecraft:block/par`, and both are resolvable. -/
def c2childRaw : String := "\x7b\"parent\": \"minecraft:block/par\"\x7d"

def c2parRaw : String := "\x7b\x7d"

def c2pack0 : ExtractedPack :=
  ⟨[("assets", FsTree.dir [("minecraft", FsTree.dir [
      ("models", FsTree.dir [("block", FsTree.dir [
        ("child.json", FsTree.file c2childRaw),
        ("par.json", FsTree.file c2parRaw)])])])])],
    ["assets", "minecraft"], 0⟩

def c2packs : List ExtractedPack := [c2pack0]

/-- A pack containing the texture `textures/block/stone.png`. -/
def c8pack0 : ExtractedPack :=
  ⟨[("assets", FsTree.dir [("minecraft", FsTree.dir [
      ("textures", FsTree.dir [("block", FsTree.dir [
        ("stone.png", FsTree.file ("PNG"))])])])])],
    ["assets", "minecraft"], 0⟩

def c8packs : List ExtractedPack := [c8pack0]

/-- A state whose models mapping already holds the key `stone`. -/
def c3memoState : BState :=
  { result := [("models", Json.obj [("stone", Json.obj [])])],
    copied := [], copyLog := [] }

/-! ## Predicates used by the verification below -/

/-- Top-level key uniqueness of a JSON value. -/
def topNodup : Json → Prop
  | .obj kvs => (kvs.map Prod.fst).Nodup
  | _ => True

def StateInv (s : BState) : Prop :=
  (∀ m, getVal? s.result ("models") = some (Json.obj m) →
    (m.map Prod.fst).Nodup) ∧
  (∀ e ∈ s.copyLog, e.ref ∈ s.copied) ∧
  (s.copyLog.map CopyEvent.ref).Nodup

/-- From `s` to `s1`, the top-level "models" value stays an object and its
key set only grows. -/
def ModelsPres (s s1 : BState) : Prop :=
  ∀ m, getVal? s.result ("models") = some (Json.obj m) →
    ∃ m1, getVal? s1.result ("models") = some (Json.obj m1) ∧
      ∀ k, (getVal? m k).isSome = true → (getVal? m1 k).isSome = true

/-- The key `k` is present in the (object-valued) models mapping of `s`. -/
def modelsHasKey (s : BState) (k : String) : Prop :=
  ∃ m1, getVal? s.result ("models") = some (Json.obj m1) ∧
    (getVal? m1 k).isSome = true

/-! ## Basic lemmas about the dictionary model -/

theorem getVal?_dictInsert_self (d : List (String × Json)) (k : String)
    (v : Json) : getVal? (dictInsert d k v) k = some v := by
  induction d with
  | nil => simp [dictInsert, getVal?]
  | cons kv rest ih =>
    obtain ⟨k1, v1⟩ := kv
    by_cases h : k1 = k
    · simp [dictInsert, h, getVal?]
    · simp [dictInsert, h, getVal?, ih]

theorem getVal?_dictInsert_ne (d : List (String × Json)) (k k1 : String)
    (v : Json) (h : k1 ≠ k) :
    getVal? (dictInsert d k v) k1 = getVal? d k1 := by
  induction d with
  | nil =>
    have hne : ¬k = k1 := fun hh => h hh.symm
    simp [dictInsert, getVal?, hne]
  | cons kv rest ih =>
    obtain ⟨k2, v2⟩ := kv
    by_cases h2 : k2 = k
    · subst h2
      have hne : ¬k2 = k1 := fun hh => h (by rw [← hh])
      simp [dictInsert, getVal?, hne]
    · by_cases h3 : k2 = k1
      · simp [dictInsert, h2, getVal?, h3, h]
      · simp [dictInsert, h2, getVal?, h3, ih]

theorem getVal?_dictInsert_isSome (d : List (String × Json)) (k k1 : String)
    (v : Json) (h : (getVal? d k1).isSome = true) :
    (getVal? (dictInsert d k v) k1).isSome = true := by
  by_cases hk : k1 = k
  · subst hk; simp [getVal?_dictInsert_self]
  · rw [getVal?_dictInsert_ne d k k1 v hk]; exact h

/-! ## C4: determinism in the caller-supplied block-name order -/

theorem sortNames_perm_eq (l1 l2 : List String) (h : l1.Perm l2) :
    sortNames l1 = sortNames l2 := by
  apply List.eq_of_perm_of_sorted
    (r := fun a b : String => a ≤ b)
  · exact (List.perm_insertionSort _ l1).trans
      (h.trans (List.perm_insertionSort _ l2).symm)
  · exact List.sorted_insertionSort _ l1
  · exact List.sorted_insertionSort _ l2

/-- C4: for a fixed pack list (and fuel), the build outcome — `textures.json`
content, the memoized/copied-texture state and the copy log, as well as the
temp-directory bookkeeping — is a function of the block-name *set*: any two
enumerations of the same set (permutations of each other) give identical
outcomes, because `_resolve_blocks` sorts the names lexicographically.
Together with `buildTextureCache` being a pure function of its inputs this is
the determinism property: two builds on equal inputs produce equal
`textures.json` content and an identical copy log. -/
theorem c4_build_deterministic_in_block_order (n1 n2 : List String)
    (rps : List ResourcePackSrc) (fuel : Nat) (h : n1.Perm n2) :
    buildTextureCache n1 rps fuel = buildTextureCache n2 rps fuel := by
  unfold buildTextureCache resolveBlocks
  rw [sortNames_perm_eq n1 n2 h]

theorem c4_witness :
    buildTextureCache (["stone", "air"]) [⟨".zip", c6wrap⟩] 3 =
      buildTextureCache (["air", "stone"]) [⟨".zip", c6wrap⟩] 3 :=
  c4_build_deterministic_in_block_order (["stone", "air"]) (["air", "stone"])
    [⟨".zip", c6wrap⟩] 3 (by decide)

/-! ## C5: the temp directory of a pack that fails asset-root location is
never cleaned up -/

/-- C5 (refuting the claim as stated, supporting the spec's intent): for a
single `.zip` pack whose extracted tree has no `assets` directory at all,
`build` raises `AssetRootNotFound` *after* `mkdtemp` created temp directory 0
but *before* the pack was registered in `self._extracted_packs`; `_cleanup`
only removes registered directories, so the created directory survives the
call.  The claim "no temporary extraction directory created by the
invocation survives its return" is therefore violated by the code. -/
theorem c5_temp_dir_leak :
    (buildTextureCache [] [⟨".zip", []⟩] 1).created = [0] ∧
    (buildTextureCache [] [⟨".zip", []⟩] 1).removed = [] ∧
    (buildTextureCache [] [⟨".zip", []⟩] 1).outcome =
      .error Err.assetRootNotFound :=
  ⟨rfl, rfl, rfl⟩

/-! ## C6: asset-root location -/

/-- C6 counterexample: the extractor checks only that `assets` exists — for
a pack whose `assets` directory lacks a `minecraft` child it still returns
the `assets/minecraft` path, so "whenever a root is returned, that
assets/minecraft directory exists" is false, as is "checks
`<extracted>/assets/minecraft`". -/
theorem c6_counterexample :
    findMinecraftPath c6tree = some (["assets", "minecraft"]) ∧
    existsEntry c6tree (["assets", "minecraft"]) = false :=
  ⟨rfl, rfl⟩

/-- C6 amended: the extractor checks, in order, (a) whether
`<extracted>/assets` exists, returning `<extracted>/assets/minecraft`
without verifying that the `minecraft` child exists, then (b) the first
top-level child directory containing an `assets` entry, returning
`<child>/assets/minecraft` (again unverified); if neither check succeeds it
fails with `AssetRootNotFound` (`FileNotFoundError`). -/
theorem c6_asset_root_characterization (es : List (String × FsTree)) :
    (∀ p, findMinecraftPath es = some p →
      (existsEntry es (["assets"]) = true ∧ p = ["assets", "minecraft"]) ∨
      (existsEntry es (["assets"]) = false ∧
        (es.find? (fun e => e.2.isDir && existsEntry [e] [e.1, "assets"])).map
          (fun e => [e.1, "assets", "minecraft"]) = some p)) ∧
    (findMinecraftPath es = none →
      existsEntry es (["assets"]) = false ∧
      es.find? (fun e => e.2.isDir && existsEntry [e] [e.1, "assets"]) = none) := by
  constructor
  · intro p hp
    unfold findMinecraftPath at hp
    by_cases ha : existsEntry es (["assets"]) = true
    · left
      refine ⟨ha, ?_⟩
      simp [ha] at hp
      exact hp.symm
    · right
      refine ⟨by simpa using ha, ?_⟩
      simp only [if_neg ha] at hp
      match hfind : es.find? (fun e => e.2.isDir && existsEntry [e] [e.1, "assets"]) with
      | some e =>
        rw [hfind] at hp
        rw [hfind]
        simpa using hp
      | none =>
        rw [hfind] at hp
        simp at hp
  · intro hp
    unfold findMinecraftPath at hp
    by_cases ha : existsEntry es (["assets"]) = true
    · simp [ha] at hp
    · refine ⟨by simpa using ha, ?_⟩
      simp only [if_neg ha] at hp
      match hfind : es.find? (fun e => e.2.isDir && existsEntry [e] [e.1, "assets"]) with
      | some e =>
        rw [hfind] at hp
        simp at hp
      | none => exact hfind

theorem c6_witness :
    (existsEntry c6wrap (["assets"]) = true ∧
      (["wrap", "assets", "minecraft"] : List String) = ["assets", "minecraft"]) ∨
    (existsEntry c6wrap (["assets"]) = false ∧
      (c6wrap.find? (fun e => e.2.isDir && existsEntry [e] [e.1, "assets"])).map
        (fun e => [e.1, "assets", "minecraft"]) =
        some (["wrap", "assets", "minecraft"])) :=
  (c6_asset_root_characterization c6wrap).1 (["wrap", "assets", "minecraft"]) rfl

/-! ## C7 counterexample: the blunt substitution can leave the prefix -/

/-- C7 counterexample: resolving the model `block/weird` of `c7packs`
succeeds and stores the parse of the text with one deletion pass applied —
but the stored string value `"minecraft:x"` still *contains* the namespace
prefix (the pass deleted the inner occurrence `minecraft:` of
`minecraftminecraft::x`, and the residue re-forms the prefix), refuting
"the stored document contains no occurrence of the namespace prefix
anywhere". -/
theorem c7_counterexample :
    resolveModel c7packs 5 (Json.str ("block/weird")) initState =
      .ok ⟨[("models", Json.obj [("weird", c7stored)])], [], []⟩ ∧
    listContainsPat (("minecraft:").data) (("minecraft:x").data) = true :=
  ⟨rfl, rfl⟩

/-! ## Generic fold and preservation lemmas -/

theorem foldE_pres {α : Type} (P : BState → Prop)
    (f : α → BState → Except Err BState)
    (hf : ∀ a s s1, P s → f a s = .ok s1 → P s1) :
    ∀ (l : List α) (s s1 : BState), P s → foldE f l s = .ok s1 → P s1 := by
  intro l
  induction l with
  | nil =>
    intro s s1 hP h
    simp [foldE] at h
    rwa [← h]
  | cons a l ih =>
    intro s s1 hP h
    simp only [foldE] at h
    cases hfa : f a s with
    | error e => rw [hfa] at h; simp at h
    | ok s2 => rw [hfa] at h; exact ih s2 s1 (hf a s s2 hP hfa) h

/-! ## The texture-copy machinery does not touch `result` -/

theorem ctLoop_result (ref : String) :
    ∀ (rest : List ExtractedPack) (s s1 : BState),
    ctLoop rest ref s = .ok s1 → s1.result = s.result := by
  intro rest
  induction rest with
  | nil =>
    intro s s1 h
    simp [ctLoop] at h
    rw [← h]
  | cons pk rest ih =>
    intro s s1 h
    simp only [ctLoop] at h
    cases hge : getEntry pk.entries (pk.mc ++ texRelSegs ref) with
    | none => rw [hge] at h; exact ih s s1 h
    | some t =>
      cases t with
      | file c =>
        rw [hge] at h
        simp at h
        rw [← h]
      | dir es => rw [hge] at h; simp at h

theorem copyTexture_result (packs : List ExtractedPack) (ref : String)
    (s s1 : BState) (h : copyTexture packs ref s = .ok s1) :
    s1.result = s.result := by
  unfold copyTexture at h
  split at h
  · simp at h
    rw [← h]
  · exact ctLoop_result ref packs s s1 h

theorem copyTexturesOf_result (packs : List ExtractedPack) (cleaned : Json)
    (s s1 : BState) (h : copyTexturesOf packs cleaned s = .ok s1) :
    s1.result = s.result := by
  unfold copyTexturesOf at h
  split at h
  · simp at h
  · simp at h
    rw [← h]
  · split at h
    · simp at h
    · split at h
      · simp at h
      · refine foldE_pres (fun t => t.result = s.result) _ ?_ _ s s1 rfl h
        intro a t t1 hP hstep
        cases a with
        | str r =>
          by_cases hh : strStartsWithHash r = true
          · simp [hh] at hstep; rw [← hstep]; exact hP
          · simp only [Bool.not_eq_true] at hh
            simp [hh] at hstep
            rw [copyTexture_result packs r t t1 hstep]
            exact hP
        | null => simp at hstep
        | bool b => simp at hstep
        | num n => simp at hstep
        | arr xs => simp at hstep
        | obj kvs => simp at hstep

/-! ## `storeModel` inversion and forward form -/

theorem storeModel_ok_inv (shortName : String) (v : Json) (s s1 : BState)
    (h : storeModel shortName v s = .ok s1) :
    ∃ m, getVal? s.result ("models") = some (Json.obj m) ∧
      s1 = { s with result := dictInsert s.result ("models")
                      (Json.obj (dictInsert m shortName v)) } := by
  unfold storeModel at h
  cases hm : getVal? s.result ("models") with
  | none => rw [hm] at h; simp at h
  | some mj =>
    rw [hm] at h
    cases mj with
    | obj m =>
      simp at h
      exact ⟨m, rfl, h.symm⟩
    | null => simp at h
    | bool b => simp at h
    | num n => simp at h
    | str t => simp at h
    | arr xs => simp at h

theorem storeModel_eq (shortName : String) (v : Json) (s : BState)
    (m : List (String × Json))
    (hm : getVal? s.result ("models") = some (Json.obj m)) :
    storeModel shortName v s =
      .ok { s with result := dictInsert s.result ("models")
                     (Json.obj (dictInsert m shortName v)) } := by
  unfold storeModel
  rw [hm]

/-! ## Inversion of the pack-scan loops at the first pack that has the
file -/

theorem rmLoop_found (recur : Json → BState → Except Err BState)
    (packs : List ExtractedPack) (shortName : String) (rel : List String) :
    ∀ (rest : List ExtractedPack) (s s1 : BState) (pk : ExtractedPack)
      (raw : String),
    firstWithEntry rest rel = some pk →
    getEntry pk.entries (pk.mc ++ rel) = some (.file raw) →
    rmLoop recur packs shortName rel rest s = .ok s1 →
    ∃ modelData s2 cleaned s3 patched,
      parseJson raw = some modelData ∧
      rmParent recur modelData s = .ok s2 ∧
      parseJson (pyReplaceDel ("minecraft:") raw) = some cleaned ∧
      copyTexturesOf packs cleaned s2 = .ok s3 ∧
      sculkPatch shortName cleaned = .ok patched ∧
      storeModel shortName patched s3 = .ok s1 := by
  intro rest
  induction rest with
  | nil =>
    intro s s1 pk raw hfirst
    simp [firstWithEntry] at hfirst
  | cons pk0 rest ih =>
    intro s s1 pk raw hfirst hentry hloop
    simp only [rmLoop] at hloop
    split at hloop
    next hge =>
      simp only [firstWithEntry] at hfirst
      rw [hge] at hfirst
      exact ih s s1 pk raw hfirst hentry hloop
    next es hge => simp at hloop
    next raw0 hge =>
      simp only [firstWithEntry] at hfirst
      rw [hge] at hfirst
      simp at hfirst
      subst hfirst
      rw [hentry] at hge
      injection hge with ht
      injection ht with ht2
      subst ht2
      split at hloop
      next => simp at hloop
      next modelData hparse =>
        split at hloop
        next e hpar => simp at hloop
        next s2 hpar =>
          split at hloop
          next => simp at hloop
          next cleaned hclean =>
            split at hloop
            next e hct => simp at hloop
            next s3 hct =>
              split at hloop
              next e hsp => simp at hloop
              next patched hsp =>
                exact ⟨modelData, s2, cleaned, s3, patched, hparse, hpar,
                       hclean, hct, hsp, hloop⟩

theorem rbLoop_found (packs : List ExtractedPack) (fuel : Nat)
    (name : String) :
    ∀ (rest : List ExtractedPack) (s s1 : BState) (pk : ExtractedPack)
      (raw : String),
    firstWithEntry rest (bsRelSegs name) = some pk →
    getEntry pk.entries (pk.mc ++ bsRelSegs name) = some (.file raw) →
    rbLoop packs fuel name rest s = .ok s1 →
    ∃ bsDoc refs s2 shortened,
      parseJson raw = some bsDoc ∧
      extractModelRefs bsDoc = .ok refs ∧
      foldE (resolveModel packs fuel) refs s = .ok s2 ∧
      shortenModelRefs bsDoc = .ok shortened ∧
      s1 = { s2 with result := dictInsert s2.result name shortened } := by
  intro rest
  induction rest with
  | nil =>
    intro s s1 pk raw hfirst
    simp [firstWithEntry] at hfirst
  | cons pk0 rest ih =>
    intro s s1 pk raw hfirst hentry hloop
    simp only [rbLoop] at hloop
    split at hloop
    next hge =>
      simp only [firstWithEntry] at hfirst
      rw [hge] at hfirst
      exact ih s s1 pk raw hfirst hentry hloop
    next es hge => simp at hloop
    next raw0 hge =>
      simp only [firstWithEntry] at hfirst
      rw [hge] at hfirst
      simp at hfirst
      subst hfirst
      rw [hentry] at hge
      injection hge with ht
      injection ht with ht2
      subst ht2
      split at hloop
      next => simp at hloop
      next bsDoc hparse =>
        split at hloop
        next e hrefs => simp at hloop
        next refs hrefs =>
          split at hloop
          next e hfold => simp at hloop
          next s2 hfold =>
            split at hloop
            next e hsh => simp at hloop
            next shortened hsh =>
              simp at hloop
              exact ⟨bsDoc, refs, s2, shortened, hparse, hrefs, hfold, hsh,
                     hloop.symm⟩

/-- Shared helper: when the first pack that has `blockstates/<name>.json`
has it as a parseable file, a successful `_resolve_block` stores exactly the
shortened form of that pack's document under the block name. -/
theorem resolveBlock_first_found
    (packs : List ExtractedPack) (fuel : Nat) (name : String)
    (s s1 : BState) (pk : ExtractedPack) (raw : String) (bsDoc B : Json)
    (hfirst : firstWithEntry packs (bsRelSegs name) = some pk)
    (hentry : getEntry pk.entries (pk.mc ++ bsRelSegs name) = some (.file raw))
    (hparse : parseJson raw = some bsDoc)
    (hshort : shortenModelRefs bsDoc = .ok B)
    (hrun : resolveBlock packs fuel name s = .ok s1) :
    getVal? s1.result name = some B := by
  obtain ⟨bsDoc2, refs, s2, B2, hp2, hrefs, hfold, hsh2, hs1⟩ :=
    rbLoop_found packs fuel name packs s s1 pk raw hfirst hentry hrun
  have hb : bsDoc2 = bsDoc := Option.some.inj (hp2.symm.trans hparse)
  subst hb
  have hB : B2 = B := by
    have := hsh2.symm.trans hshort
    injection this
  rw [hs1, ← hB]
  exact getVal?_dictInsert_self s2.result name B2

/-! ## C1: first-pack exclusivity of blockstate resolution -/

/-- C1: if pack `pk` is the first pack (lowest index) whose
`blockstates/<name>.json` exists, then on a successful `_resolve_block` the
entry stored under the block name equals the shortened form of `pk`'s whole
document — a value computed from `raw` (that pack's file) alone, so no
content from any later pack can appear in the entry, regardless of what
later packs define for the same block. -/
theorem c1_blockstate_first_pack_exclusive
    (packs : List ExtractedPack) (fuel : Nat) (name : String)
    (s s1 : BState) (pk : ExtractedPack) (raw : String) (bsDoc B : Json)
    (hfirst : firstWithEntry packs (bsRelSegs name) = some pk)
    (hentry : getEntry pk.entries (pk.mc ++ bsRelSegs name) = some (.file raw))
    (hparse : parseJson raw = some bsDoc)
    (hshort : shortenModelRefs bsDoc = .ok B)
    (hrun : resolveBlock packs fuel name s = .ok s1) :
    getVal? s1.result name = some B :=
  resolveBlock_first_found packs fuel name s s1 pk raw bsDoc B
    hfirst hentry hparse hshort hrun

theorem c1_witness :
    getVal? (BState.mk
      [("models", Json.obj []), ("stone", stoneShortA)] [] []).result
      ("stone") = some stoneShortA :=
  c1_blockstate_first_pack_exclusive [packStoneA, packStoneB] 1 ("stone")
    initState
    (BState.mk [("models", Json.obj []), ("stone", stoneShortA)] [] [])
    packStoneA blockstoneA stoneDocA stoneShortA rfl rfl rfl rfl rfl

/-! ## C7 amended: the whole-document textual substitution -/

/-- C7 amended: the model stored under a newly-resolved short key equals the
parse of the *entire raw text* of the first pack's document after one
left-to-right pass deleting non-overlapping occurrences of the namespace
prefix (`str.replace` applied before parsing, not a structural rewrite), as
further transformed by the `sculk_sensor` patch (the identity for any other
short key).  Any string value whose raw spelling contains the prefix is
altered by the substitution, but — as `c7_counterexample` shows — the stored
document may still contain an occurrence of the prefix formed by the
residues of overlapping near-matches, so "contains no occurrence anywhere"
does not hold. -/
theorem c7_textual_substitution
    (packs : List ExtractedPack) (fuel : Nat) (ref : String) (s s1 : BState)
    (mj : Json) (pk : ExtractedPack) (raw : String) (cleaned patched : Json)
    (hm : getVal? s.result ("models") = some mj)
    (hmemo : jsonHasKeyE mj (shortKeyOfRef ref) = .ok false)
    (hfirst : firstWithEntry packs (modelRelOfRef ref) = some pk)
    (hentry : getEntry pk.entries (pk.mc ++ modelRelOfRef ref) =
      some (.file raw))
    (hclean : parseJson (pyReplaceDel ("minecraft:") raw) = some cleaned)
    (hpatch : sculkPatch (shortKeyOfRef ref) cleaned = .ok patched)
    (hrun : resolveModel packs (fuel + 1) (Json.str ref) s = .ok s1) :
    ∃ m1, getVal? s1.result ("models") = some (Json.obj m1) ∧
      getVal? m1 (shortKeyOfRef ref) = some patched := by
  simp only [resolveModel] at hrun
  split at hrun
  next h0 => rw [hm] at h0; cases h0
  next mj2 hmj =>
    have hmjeq : mj2 = mj := Option.some.inj (hmj.symm.trans hm)
    subst hmjeq
    split at hrun
    next e hk =>
      have := hmemo.symm.trans hk
      cases this
    next hk =>
      have := hmemo.symm.trans hk
      injection this with hb
      cases hb
    next hk =>
      obtain ⟨md, s2, cl2, s3, pt2, hparse2, hpar, hcl2, hct, hsp2, hstore⟩ :=
        rmLoop_found (resolveModel packs fuel) packs (shortKeyOfRef ref)
          (modelRelOfRef ref) packs s s1 pk raw hfirst hentry hrun
      have hcleq : cl2 = cleaned := Option.some.inj (hcl2.symm.trans hclean)
      subst hcleq
      have hpteq : pt2 = patched := by
        have := hsp2.symm.trans hpatch
        injection this
      rw [← hpteq]
      obtain ⟨m2, hm2, hs1⟩ :=
        storeModel_ok_inv (shortKeyOfRef ref) pt2 s3 s1 hstore
      refine ⟨dictInsert m2 (shortKeyOfRef ref) pt2, ?_, ?_⟩
      · rw [hs1]
        exact getVal?_dictInsert_self s3.result ("models") _
      · exact getVal?_dictInsert_self m2 (shortKeyOfRef ref) pt2

theorem c7_witness :
    ∃ m1,
      getVal? (BState.mk [("models", Json.obj [("weird", c7stored)])] []
        []).result ("models") = some (Json.obj m1) ∧
      getVal? m1 (shortKeyOfRef ("block/weird")) = some c7stored :=
  c7_textual_substitution c7packs 4 ("block/weird") initState
    (BState.mk [("models", Json.obj [("weird", c7stored)])] [] [])
    (Json.obj []) c7pack0 c7raw c7stored c7stored
    rfl rfl rfl rfl rfl rfl rfl

/-! ## C10: the per-block entries and the models mapping share one key
space -/

/-- C10: (1) if the caller requests a block literally named `models` and
some pack defines `blockstates/models.json`, then after `_resolve_block`
stores that entry the top-level `"models"` key holds the shortened
*blockstate* document — replacing the mapping of all models resolved so far;
(2) a model stored afterwards is inserted as a key of whatever object the
top-level `"models"` key currently holds (here: the blockstate document).
The guarantee that `result["models"]` maps short keys to resolved models
therefore only holds when `models` is not a resolved block name. -/
theorem c10_models_key_collision :
    (∀ (packs : List ExtractedPack) (fuel : Nat) (s s1 : BState)
       (pk : ExtractedPack) (raw : String) (bsDoc B : Json),
       firstWithEntry packs (bsRelSegs ("models")) = some pk →
       getEntry pk.entries (pk.mc ++ bsRelSegs ("models")) =
         some (.file raw) →
       parseJson raw = some bsDoc →
       shortenModelRefs bsDoc = .ok B →
       resolveBlock packs fuel ("models") s = .ok s1 →
       getVal? s1.result ("models") = some B) ∧
    (∀ (shortName : String) (v : Json) (s : BState)
       (m : List (String × Json)),
       getVal? s.result ("models") = some (Json.obj m) →
       storeModel shortName v s =
         .ok { s with result := dictInsert s.result ("models")
                        (Json.obj (dictInsert m shortName v)) }) := by
  constructor
  · intro packs fuel s s1 pk raw bsDoc B hfirst hentry hparse hshort hrun
    exact resolveBlock_first_found packs fuel ("models") s s1 pk raw bsDoc B
      hfirst hentry hparse hshort hrun
  · intro shortName v s m hm
    exact storeModel_eq shortName v s m hm

theorem c10_witness :
    getVal? (BState.mk [("models", c10shortened)] [] []).result ("models") =
      some c10shortened :=
  c10_models_key_collision.1 c10packs 2 initState
    (BState.mk [("models", c10shortened)] [] [])
    c10pack0 c10bsRaw
    (Json.obj [("variants", Json.obj [("", Json.obj [("model",
      Json.str ("block/weird"))])])])
    c10shortened rfl rfl rfl rfl rfl

/-! ## Key-uniqueness machinery

Python dicts cannot hold a key twice.  The embedding maintains this as an
invariant: every object built by the parser (`mkObj`) or updated by
`dictInsert` has pairwise-distinct keys at its top level. -/

theorem mem_keys_dictInsert (d : List (String × Json)) (k x : String)
    (v : Json) (h : x ∈ (dictInsert d k v).map Prod.fst) :
    x ∈ d.map Prod.fst ∨ x = k := by
  induction d with
  | nil =>
    rcases List.mem_cons.mp h with h2 | h2
    · exact Or.inr h2
    · exact absurd h2 (List.not_mem_nil x)
  | cons kv rest ih =>
    obtain ⟨k1, v1⟩ := kv
    by_cases h1 : k1 = k
    · simp only [dictInsert, if_pos h1, List.map_cons] at h
      exact Or.inl h
    · simp only [dictInsert, if_neg h1, List.map_cons] at h
      rcases List.mem_cons.mp h with h2 | h2
      · exact Or.inl (List.mem_cons.mpr (Or.inl h2))
      · rcases ih h2 with h3 | h3
        · exact Or.inl (List.mem_cons.mpr (Or.inr h3))
        · exact Or.inr h3

theorem nodupKeys_dictInsert (d : List (String × Json)) (k : String)
    (v : Json) (h : (d.map Prod.fst).Nodup) :
    ((dictInsert d k v).map Prod.fst).Nodup := by
  induction d with
  | nil => simp [dictInsert]
  | cons kv rest ih =>
    obtain ⟨k1, v1⟩ := kv
    simp only [List.map_cons, List.nodup_cons] at h
    obtain ⟨hk1, hrest⟩ := h
    by_cases h1 : k1 = k
    · simp only [dictInsert, if_pos h1, List.map_cons, List.nodup_cons]
      exact ⟨hk1, hrest⟩
    · simp only [dictInsert, if_neg h1, List.map_cons, List.nodup_cons]
      refine ⟨?_, ih hrest⟩
      intro hmem
      rcases mem_keys_dictInsert rest k k1 v hmem with h2 | h2
      · exact hk1 h2
      · exact h1 h2

theorem mkObj_nodup (pairs : List (String × Json)) :
    ((mkObj pairs).map Prod.fst).Nodup := by
  have hgen : ∀ (ps : List (String × Json)) (d : List (String × Json)),
      (d.map Prod.fst).Nodup →
      ((ps.foldl (fun d kv => dictInsert d kv.1 kv.2) d).map Prod.fst).Nodup := by
    intro ps
    induction ps with
    | nil => intro d hd; simpa using hd
    | cons kv rest ih =>
      intro d hd
      exact ih (dictInsert d kv.1 kv.2) (nodupKeys_dictInsert d kv.1 kv.2 hd)
  exact hgen pairs [] (by simp)

theorem topNodup_of_not_obj (j : Json)
    (h : ∀ kvs, j ≠ Json.obj kvs) : topNodup j := by
  cases j with
  | obj kvs => exact absurd rfl (h kvs)
  | null => trivial
  | bool b => trivial
  | num n => trivial
  | str s => trivial
  | arr xs => trivial

set_option maxHeartbeats 4000000 in
theorem pVal_topNodup (n : Nat) (cs : List Char) (j : Json)
    (rest : List Char) (h : pVal n cs = some (j, rest)) : topNodup j := by
  rw [pVal.eq_def] at h
  split at h
  · simp at h
  · split at h <;>
      solve
        | simp at h
        | (injection h with hp; injection hp with h1 h2; subst h1;
           simp [topNodup, mkObj_nodup])
        | (split at h <;>
            solve
              | simp at h
              | (injection h with hp; injection hp with h1 h2; subst h1;
                 simp [topNodup, mkObj_nodup])
              | (split at h <;>
                  solve
                    | simp at h
                    | (injection h with hp; injection hp with h1 h2;
                       subst h1; simp [topNodup, mkObj_nodup])))

theorem parseJson_topNodup (raw : String) (j : Json)
    (h : parseJson raw = some j) : topNodup j := by
  unfold parseJson at h
  split at h
  · simp at h
  next j2 rest hp =>
    split at h
    · simp at h
      rw [← h]
      exact pVal_topNodup _ _ _ _ hp
    · simp at h

theorem shortenVariants_topNodup (bs B : Json) (hb : topNodup bs)
    (h : shortenVariants bs = .ok B) : topNodup B := by
  unfold shortenVariants at h
  split at h <;>
    solve
      | simp at h
      | (split at h <;>
          solve
            | simp at h
            | (simp at h; rw [← h]; exact hb)
            | (split at h <;>
                solve
                  | simp at h
                  | (simp at h; rw [← h]; exact hb)
                  | (split at h <;>
                      solve
                        | simp at h
                        | (simp at h; rw [← h]; exact hb)
                        | (simp at h; rw [← h]; simp only [topNodup];
                           exact nodupKeys_dictInsert _ _ _
                             (by simpa [topNodup] using hb)))))

theorem shortenMultipart_topNodup (bs1 B : Json) (hb : topNodup bs1)
    (h : shortenMultipart bs1 = .ok B) : topNodup B := by
  unfold shortenMultipart at h
  split at h <;>
    solve
      | simp at h
      | (simp at h; rw [← h]; exact hb)
      | (split at h <;>
          solve
            | simp at h
            | (simp at h; rw [← h]; exact hb)
            | (split at h <;>
                solve
                  | simp at h
                  | (simp at h; rw [← h]; exact hb)
                  | (split at h <;>
                      solve
                        | simp at h
                        | (simp at h; rw [← h]; exact hb)
                        | (split at h <;>
                            solve
                              | simp at h
                              | (simp at h; rw [← h]; exact hb)
                              | (simp at h; rw [← h]; simp only [topNodup];
                                 exact nodupKeys_dictInsert _ _ _
                                   (by simpa [topNodup] using hb))))))

theorem shortenModelRefs_topNodup (bs B : Json) (hb : topNodup bs)
    (h : shortenModelRefs bs = .ok B) : topNodup B := by
  unfold shortenModelRefs at h
  split at h
  · simp at h
  next hv hk =>
    split at h
    next e heq => simp at h
    next bs1 heq =>
      have hb1 : topNodup bs1 := by
        by_cases hhv : hv = true
        · rw [if_pos hhv] at heq
          exact shortenVariants_topNodup bs bs1 hb heq
        · rw [if_neg hhv] at heq
          simp at heq
          rw [← heq]
          exact hb
      exact shortenMultipart_topNodup bs1 B hb1 h

/-! ## The build-level state invariant: models-object key uniqueness and
copy-once bookkeeping -/

theorem initState_inv : StateInv initState := by
  refine ⟨?_, ?_, ?_⟩
  · intro m hm
    simp [initState, getVal?] at hm
    subst hm
    simp
  · intro e he
    simp [initState] at he
  · simp [initState]

theorem ctLoop_inv (ref : String) :
    ∀ (rest : List ExtractedPack) (s s1 : BState),
    ref ∉ s.copied → StateInv s → ctLoop rest ref s = .ok s1 →
    StateInv s1 := by
  intro rest
  induction rest with
  | nil =>
    intro s s1 hn hI h
    simp [ctLoop] at h
    rwa [← h]
  | cons pk rest ih =>
    intro s s1 hn hI h
    simp only [ctLoop] at h
    split at h
    next c hge =>
      simp at h
      rw [← h]
      refine ⟨hI.1, ?_, ?_⟩
      · intro e he
        simp at he
        rcases he with he | he
        · simp
          exact Or.inl (hI.2.1 e he)
        · simp [he]
      · simp only [List.map_append, List.map_cons, List.map_nil]
        refine List.Nodup.append hI.2.2 (by simp) ?_
        intro x hx hx2
        simp at hx2
        subst hx2
        rcases List.mem_map.mp hx with ⟨e, he, hre⟩
        exact hn (hre ▸ hI.2.1 e he)
    next es hge => simp at h
    next hge => exact ih s s1 hn hI h

theorem copyTexture_inv (packs : List ExtractedPack) (ref : String)
    (s s1 : BState) (hI : StateInv s)
    (h : copyTexture packs ref s = .ok s1) : StateInv s1 := by
  unfold copyTexture at h
  split at h
  · simp at h
    rwa [← h]
  next hc =>
    have hn : ref ∉ s.copied := by
      intro hmem
      exact hc (List.elem_eq_true_of_mem hmem)
    exact ctLoop_inv ref packs s s1 hn hI h

theorem copyTexturesOf_inv (packs : List ExtractedPack) (cleaned : Json)
    (s s1 : BState) (hI : StateInv s)
    (h : copyTexturesOf packs cleaned s = .ok s1) : StateInv s1 := by
  unfold copyTexturesOf at h
  split at h
  · simp at h
  · simp at h
    rwa [← h]
  · split at h
    · simp at h
    · split at h
      · simp at h
      · refine foldE_pres StateInv _ ?_ _ s s1 hI h
        intro a t t1 hP hstep
        cases a with
        | str r =>
          by_cases hh : strStartsWithHash r = true
          · simp [hh] at hstep
            rwa [← hstep]
          · simp only [Bool.not_eq_true] at hh
            simp [hh] at hstep
            exact copyTexture_inv packs r t t1 hP hstep
        | null => simp at hstep
        | bool b => simp at hstep
        | num n => simp at hstep
        | arr xs => simp at hstep
        | obj kvs => simp at hstep

theorem storeModel_inv_pres (shortName : String) (v : Json) (s s1 : BState)
    (hI : StateInv s) (h : storeModel shortName v s = .ok s1) :
    StateInv s1 := by
  obtain ⟨m, hm, hs1⟩ := storeModel_ok_inv shortName v s s1 h
  rw [hs1]
  refine ⟨?_, hI.2.1, hI.2.2⟩
  intro m2 hm2
  rw [getVal?_dictInsert_self] at hm2
  injection hm2 with hh
  injection hh with hh2
  rw [← hh2]
  exact nodupKeys_dictInsert m shortName v (hI.1 m hm)

theorem rmParent_inv (recur : Json → BState → Except Err BState)
    (hrec : ∀ rj t t1, StateInv t → recur rj t = .ok t1 → StateInv t1)
    (modelData : Json) (s s1 : BState) (hI : StateInv s)
    (h : rmParent recur modelData s = .ok s1) : StateInv s1 := by
  unfold rmParent at h
  split at h
  · simp at h
  · simp at h
    rwa [← h]
  · split at h
    · simp at h
    next pj hg => exact hrec pj s s1 hI h

theorem rmLoop_inv (recur : Json → BState → Except Err BState)
    (packs : List ExtractedPack) (shortName : String) (rel : List String)
    (hrec : ∀ rj t t1, StateInv t → recur rj t = .ok t1 → StateInv t1) :
    ∀ (rest : List ExtractedPack) (s s1 : BState), StateInv s →
    rmLoop recur packs shortName rel rest s = .ok s1 → StateInv s1 := by
  intro rest
  induction rest with
  | nil =>
    intro s s1 hI h
    simp [rmLoop] at h
    rwa [← h]
  | cons pk rest ih =>
    intro s s1 hI h
    simp only [rmLoop] at h
    split at h
    next hge => exact ih s s1 hI h
    next es hge => simp at h
    next raw hge =>
      split at h
      · simp at h
      next modelData hparse =>
        split at h
        next e hpar => simp at h
        next s2 hpar =>
          split at h
          · simp at h
          next cleaned hclean =>
            split at h
            next e hct => simp at h
            next s3 hct =>
              split at h
              next e hsp => simp at h
              next patched hsp =>
                have hI2 := rmParent_inv recur hrec modelData s s2 hI hpar
                have hI3 := copyTexturesOf_inv packs cleaned s2 s3 hI2 hct
                exact storeModel_inv_pres shortName patched s3 s1 hI3 h

theorem resolveModel_inv (packs : List ExtractedPack) :
    ∀ (fuel : Nat) (refJ : Json) (s s1 : BState), StateInv s →
    resolveModel packs fuel refJ s = .ok s1 → StateInv s1 := by
  intro fuel
  induction fuel with
  | zero =>
    intro refJ s s1 hI h
    simp [resolveModel] at h
  | succ fuel ih =>
    intro refJ s s1 hI h
    simp only [resolveModel] at h
    split at h
    next ref =>
      split at h
      · simp at h
      next mj hmj =>
        split at h
        next e hk => simp at h
        next hk =>
          simp at h
          rwa [← h]
        next hk =>
          exact rmLoop_inv (resolveModel packs fuel) packs
            (shortKeyOfRef ref) (modelRelOfRef ref)
            (fun rj t t1 => ih rj t t1) packs s s1 hI h
    next => simp at h

theorem rbLoop_inv (packs : List ExtractedPack) (fuel : Nat)
    (name : String) :
    ∀ (rest : List ExtractedPack) (s s1 : BState), StateInv s →
    rbLoop packs fuel name rest s = .ok s1 → StateInv s1 := by
  intro rest
  induction rest with
  | nil =>
    intro s s1 hI h
    simp [rbLoop] at h
    rwa [← h]
  | cons pk rest ih =>
    intro s s1 hI h
    simp only [rbLoop] at h
    split at h
    next hge => exact ih s s1 hI h
    next es hge => simp at h
    next raw hge =>
      split at h
      · simp at h
      next bsDoc hparse =>
        split at h
        next e hrefs => simp at h
        next refs hrefs =>
          split at h
          next e hfold => simp at h
          next s2 hfold =>
            split at h
            next e hsh => simp at h
            next shortened hsh =>
              simp at h
              rw [← h]
              have hI2 : StateInv s2 :=
                foldE_pres StateInv _
                  (fun a t t1 hP hstep =>
                    resolveModel_inv packs fuel a t t1 hP hstep)
                  refs s s2 hI hfold
              refine ⟨?_, hI2.2.1, hI2.2.2⟩
              intro m hm
              by_cases hname : name = "models"
              · subst hname
                rw [getVal?_dictInsert_self] at hm
                have htn : topNodup shortened :=
                  shortenModelRefs_topNodup bsDoc shortened
                    (parseJson_topNodup raw bsDoc hparse) hsh
                injection hm with hh
                rw [hh] at htn
                simpa [topNodup] using htn
              · rw [getVal?_dictInsert_ne s2.result name ("models") shortened
                  (fun hh => hname hh.symm)] at hm
                exact hI2.1 m hm

theorem resolveBlocks_inv (packs : List ExtractedPack) (fuel : Nat)
    (names : List String) (s s1 : BState) (hI : StateInv s)
    (h : resolveBlocks packs fuel names s = .ok s1) : StateInv s1 := by
  unfold resolveBlocks at h
  exact foldE_pres StateInv _
    (fun a t t1 hP hstep => rbLoop_inv packs fuel a packs t t1 hP hstep)
    (sortNames names) s s1 hI h

theorem buildTextureCache_inv (names : List String)
    (rps : List ResourcePackSrc) (fuel : Nat) (s : BState)
    (h : (buildTextureCache names rps fuel).outcome = .ok s) :
    StateInv s := by
  unfold buildTextureCache at h
  split at h
  next created reg extErr heq =>
    split at h
    · simp at h
    · split at h
      next e hres => simp at h
      next s2 hres =>
        simp at h
        rw [← h]
        exact resolveBlocks_inv reg fuel names initState s2 initState_inv hres

/-! ## Copy-loop behavior lemmas for C8 -/

theorem ctLoop_first (ref : String) :
    ∀ (rest : List ExtractedPack) (s : BState) (pk : ExtractedPack)
      (c : String),
    firstWithEntry rest (texRelSegs ref) = some pk →
    getEntry pk.entries (pk.mc ++ texRelSegs ref) = some (.file c) →
    ctLoop rest ref s =
      .ok { s with copied := s.copied ++ [ref],
                   copyLog := s.copyLog ++ [⟨ref, pk.tmp, texRelSegs ref⟩] } := by
  intro rest
  induction rest with
  | nil =>
    intro s pk c hfirst
    simp [firstWithEntry] at hfirst
  | cons pk0 rest ih =>
    intro s pk c hfirst hentry
    cases hge : getEntry pk0.entries (pk0.mc ++ texRelSegs ref) with
    | none =>
      simp only [firstWithEntry] at hfirst
      rw [hge] at hfirst
      simp only [ctLoop]
      rw [hge]
      exact ih s pk c hfirst hentry
    | some t =>
      simp only [firstWithEntry] at hfirst
      rw [hge] at hfirst
      simp at hfirst
      subst hfirst
      rw [hentry] at hge
      injection hge with ht
      subst ht
      simp only [ctLoop]
      rw [hentry]

theorem ctLoop_log (ref : String) :
    ∀ (rest : List ExtractedPack) (s s1 : BState),
    ctLoop rest ref s = .ok s1 →
    ∀ e ∈ s1.copyLog, e ∈ s.copyLog ∨ e.ref = ref := by
  intro rest
  induction rest with
  | nil =>
    intro s s1 h e he
    simp [ctLoop] at h
    rw [← h] at he
    exact Or.inl he
  | cons pk rest ih =>
    intro s s1 h e he
    simp only [ctLoop] at h
    split at h
    next c hge =>
      simp at h
      rw [← h] at he
      simp at he
      rcases he with he | he
      · exact Or.inl he
      · right
        rw [he]
    next es hge => simp at h
    next hge => exact ih s s1 h e he

theorem copyTexture_log (packs : List ExtractedPack) (ref : String)
    (s s1 : BState) (h : copyTexture packs ref s = .ok s1) :
    ∀ e ∈ s1.copyLog, e ∈ s.copyLog ∨ e.ref = ref := by
  unfold copyTexture at h
  split at h
  · simp at h
    intro e he
    rw [← h] at he
    exact Or.inl he
  · exact ctLoop_log ref packs s s1 h

theorem foldE_pres_mem {α : Type} (P : BState → Prop)
    (f : α → BState → Except Err BState) :
    ∀ (l : List α),
    (∀ a ∈ l, ∀ s s1, P s → f a s = .ok s1 → P s1) →
    ∀ (s s1 : BState), P s → foldE f l s = .ok s1 → P s1 := by
  intro l
  induction l with
  | nil =>
    intro _ s s1 hP h
    simp [foldE] at h
    rwa [← h]
  | cons a l ih =>
    intro hf s s1 hP h
    simp only [foldE] at h
    cases hfa : f a s with
    | error e => rw [hfa] at h; simp at h
    | ok s2 =>
      rw [hfa] at h
      exact ih (fun b hb => hf b (List.mem_cons.mpr (Or.inr hb))) s2 s1
        (hf a (List.mem_cons.mpr (Or.inl rfl)) s s2 hP hfa) h

/-! ## C3: memoization of model resolution -/

/-- C3: (1) once a short key is present in whatever value the top-level
"models" key holds, every later resolution request whose reference has that
final path segment returns immediately with the state unchanged — no pack
scan, no store, regardless of the reference's full path; (2) the models
object of a completed build has pairwise-distinct keys, so each resolved
model appears exactly once however many blocks or parent chains reference
it. -/
theorem c3_model_memoization :
    (∀ (packs : List ExtractedPack) (fuel : Nat) (ref : String)
       (s : BState) (mj : Json),
       getVal? s.result ("models") = some mj →
       jsonHasKeyE mj (shortKeyOfRef ref) = .ok true →
       resolveModel packs (fuel + 1) (Json.str ref) s = .ok s) ∧
    (∀ (names : List String) (rps : List ResourcePackSrc) (fuel : Nat)
       (s : BState) (m : List (String × Json)),
       (buildTextureCache names rps fuel).outcome = .ok s →
       getVal? s.result ("models") = some (Json.obj m) →
       (m.map Prod.fst).Nodup) := by
  constructor
  · intro packs fuel ref s mj hm hk
    simp [resolveModel, hm, hk]
  · intro names rps fuel s m hbuild hm
    exact (buildTextureCache_inv names rps fuel s hbuild).1 m hm

theorem c3_witness :
    resolveModel [] 1 (Json.str ("block/stone")) c3memoState =
      .ok c3memoState :=
  c3_model_memoization.1 [] 0 ("block/stone") c3memoState
    (Json.obj [("stone", Json.obj [])]) rfl rfl

/-! ## C8: texture copying -/

/-- C8: (1) a reference already memoized in `copied_textures` is never
copied again (no-op); (2) an unmemoized reference that the first
pack-in-priority-order owning `textures/<ref>.png` provides as a file is
copied exactly once: from that pack, to the destination's texture subtree at
the same relative path, and the reference is memoized; (3) the texture-copy
phase of model resolution adds copy events only for values of the "textures"
mapping that do not start with "#" — variable aliases are never copied;
(4) over a whole successful build, no reference is ever copied twice (the
copy-log references are pairwise distinct). -/
theorem c8_texture_copy :
    (∀ (packs : List ExtractedPack) (ref : String) (s : BState),
       s.copied.contains ref = true → copyTexture packs ref s = .ok s) ∧
    (∀ (packs : List ExtractedPack) (ref : String) (s : BState)
       (pk : ExtractedPack) (c : String),
       s.copied.contains ref = false →
       firstWithEntry packs (texRelSegs ref) = some pk →
       getEntry pk.entries (pk.mc ++ texRelSegs ref) = some (.file c) →
       copyTexture packs ref s =
         .ok { s with copied := s.copied ++ [ref],
                      copyLog := s.copyLog ++ [⟨ref, pk.tmp, texRelSegs ref⟩] }) ∧
    (∀ (packs : List ExtractedPack) (cleaned : Json) (s s1 : BState),
       copyTexturesOf packs cleaned s = .ok s1 →
       ∀ e ∈ s1.copyLog, e ∈ s.copyLog ∨
         ∃ tj vals v, jsonGetItem cleaned ("textures") = .ok tj ∧
           jsonValuesE tj = .ok vals ∧ Json.str v ∈ vals ∧
           strStartsWithHash v = false ∧ e.ref = v) ∧
    (∀ (names : List String) (rps : List ResourcePackSrc) (fuel : Nat)
       (s : BState),
       (buildTextureCache names rps fuel).outcome = .ok s →
       (s.copyLog.map CopyEvent.ref).Nodup) := by
  refine ⟨?_, ?_, ?_, ?_⟩
  · intro packs ref s hc
    unfold copyTexture
    rw [hc]
    simp
  · intro packs ref s pk c hc hfirst hentry
    unfold copyTexture
    rw [hc]
    simp only [Bool.false_eq_true, if_false]
    exact ctLoop_first ref packs s pk c hfirst hentry
  · intro packs cleaned s s1 h
    unfold copyTexturesOf at h
    split at h
    · simp at h
    · simp at h
      rw [← h]
      intro e he
      exact Or.inl he
    next hkey =>
      split at h
      · simp at h
      next tj hg =>
        split at h
        · simp at h
        next vals hv =>
          refine foldE_pres_mem
            (fun t => ∀ e ∈ t.copyLog, e ∈ s.copyLog ∨
              ∃ tj2 vals2 v, jsonGetItem cleaned ("textures") = .ok tj2 ∧
                jsonValuesE tj2 = .ok vals2 ∧ Json.str v ∈ vals2 ∧
                strStartsWithHash v = false ∧ e.ref = v)
            _ vals ?_ s s1 (fun e he => Or.inl he) h
          intro a ha t t1 hP hstep
          cases a with
          | str r =>
            by_cases hh : strStartsWithHash r = true
            · simp [hh] at hstep
              rw [← hstep]
              exact hP
            · simp only [Bool.not_eq_true] at hh
              simp [hh] at hstep
              intro e he
              rcases copyTexture_log packs r t t1 hstep e he with h2 | h2
              · exact hP e h2
              · exact Or.inr ⟨tj, vals, r, hg, hv, ha, hh, h2⟩
          | null => simp at hstep
          | bool b => simp at hstep
          | num n => simp at hstep
          | arr xs => simp at hstep
          | obj kvs => simp at hstep
  · intro names rps fuel s hbuild
    exact (buildTextureCache_inv names rps fuel s hbuild).2.2

theorem c8_witness :
    copyTexture c8packs ("block/stone") initState =
      .ok { initState with
              copied := [("block/stone")],
              copyLog := [⟨("block/stone"), 0,
                ["textures", "block", "stone.png"]⟩] } :=
  c8_texture_copy.2.1 c8packs ("block/stone") initState
    c8pack0 ("PNG") rfl rfl rfl

/-! ## Monotonicity of the models object under model resolution (for C2) -/

theorem modelsPres_refl (s : BState) : ModelsPres s s :=
  fun m hm => ⟨m, hm, fun _ hk => hk⟩

theorem modelsPres_trans (s t u : BState) (h1 : ModelsPres s t)
    (h2 : ModelsPres t u) : ModelsPres s u := by
  intro m hm
  obtain ⟨m1, hm1, hk1⟩ := h1 m hm
  obtain ⟨m2, hm2, hk2⟩ := h2 m1 hm1
  exact ⟨m2, hm2, fun k hk => hk2 k (hk1 k hk)⟩

theorem modelsPres_of_result_eq (s t : BState) (h : t.result = s.result) :
    ModelsPres s t := by
  intro m hm
  exact ⟨m, by rw [h]; exact hm, fun _ hk => hk⟩

theorem storeModel_modelsPres (shortName : String) (v : Json) (s s1 : BState)
    (h : storeModel shortName v s = .ok s1) : ModelsPres s s1 := by
  obtain ⟨m, hm, hs1⟩ := storeModel_ok_inv shortName v s s1 h
  intro m2 hm2
  have : m2 = m := by
    rw [hm] at hm2
    injection hm2 with hh
    injection hh with hh2
    exact hh2.symm
  subst this
  refine ⟨dictInsert m2 shortName v, ?_, ?_⟩
  · rw [hs1]
    exact getVal?_dictInsert_self s.result ("models") _
  · intro k hk
    exact getVal?_dictInsert_isSome m2 shortName k v hk

theorem rmParent_modelsPres (recur : Json → BState → Except Err BState)
    (hrec : ∀ rj t t1, recur rj t = .ok t1 → ModelsPres t t1)
    (modelData : Json) (s s1 : BState)
    (h : rmParent recur modelData s = .ok s1) : ModelsPres s s1 := by
  unfold rmParent at h
  split at h
  · simp at h
  · simp at h
    rw [← h]
    exact modelsPres_refl s
  · split at h
    · simp at h
    next pj hg => exact hrec pj s s1 h

theorem rmLoop_modelsPres (recur : Json → BState → Except Err BState)
    (packs : List ExtractedPack) (shortName : String) (rel : List String)
    (hrec : ∀ rj t t1, recur rj t = .ok t1 → ModelsPres t t1) :
    ∀ (rest : List ExtractedPack) (s s1 : BState),
    rmLoop recur packs shortName rel rest s = .ok s1 → ModelsPres s s1 := by
  intro rest
  induction rest with
  | nil =>
    intro s s1 h
    simp [rmLoop] at h
    rw [← h]
    exact modelsPres_refl s
  | cons pk rest ih =>
    intro s s1 h
    simp only [rmLoop] at h
    split at h
    next hge => exact ih s s1 h
    next es hge => simp at h
    next raw hge =>
      split at h
      · simp at h
      next modelData hparse =>
        split at h
        next e hpar => simp at h
        next s2 hpar =>
          split at h
          · simp at h
          next cleaned hclean =>
            split at h
            next e hct => simp at h
            next s3 hct =>
              split at h
              next e hsp => simp at h
              next patched hsp =>
                refine modelsPres_trans s s2 s1
                  (rmParent_modelsPres recur hrec modelData s s2 hpar) ?_
                refine modelsPres_trans s2 s3 s1
                  (modelsPres_of_result_eq s2 s3
                    (copyTexturesOf_result packs cleaned s2 s3 hct)) ?_
                exact storeModel_modelsPres shortName patched s3 s1 h

theorem resolveModel_modelsPres (packs : List ExtractedPack) :
    ∀ (fuel : Nat) (refJ : Json) (s s1 : BState),
    resolveModel packs fuel refJ s = .ok s1 → ModelsPres s s1 := by
  intro fuel
  induction fuel with
  | zero =>
    intro refJ s s1 h
    simp [resolveModel] at h
  | succ fuel ih =>
    intro refJ s s1 h
    simp only [resolveModel] at h
    split at h
    next ref =>
      split at h
      · simp at h
      next mj hmj =>
        split at h
        next e hk => simp at h
        next hk =>
          simp at h
          rw [← h]
          exact modelsPres_refl s
        next hk =>
          exact rmLoop_modelsPres (resolveModel packs fuel) packs
            (shortKeyOfRef ref) (modelRelOfRef ref)
            (fun rj t t1 => ih rj t t1) packs s s1 h
    next => simp at h

theorem rmLoop_avail (recur : Json → BState → Except Err BState)
    (packs : List ExtractedPack) (shortName : String) (rel : List String)
    (hrec : ∀ rj t t1, recur rj t = .ok t1 → ModelsPres t t1) :
    ∀ (rest : List ExtractedPack) (s s1 : BState)
      (m : List (String × Json)),
    getVal? s.result ("models") = some (Json.obj m) →
    (firstWithEntry rest rel).isSome = true →
    rmLoop recur packs shortName rel rest s = .ok s1 →
    modelsHasKey s1 shortName := by
  intro rest
  induction rest with
  | nil =>
    intro s s1 m hm havail
    simp [firstWithEntry] at havail
  | cons pk rest ih =>
    intro s s1 m hm havail h
    simp only [rmLoop] at h
    split at h
    next hge =>
      simp only [firstWithEntry] at havail
      rw [hge] at havail
      exact ih s s1 m hm havail h
    next es hge => simp at h
    next raw hge =>
      split at h
      · simp at h
      next modelData hparse =>
        split at h
        next e hpar => simp at h
        next s2 hpar =>
          split at h
          · simp at h
          next cleaned hclean =>
            split at h
            next e hct => simp at h
            next s3 hct =>
              split at h
              next e hsp => simp at h
              next patched hsp =>
                obtain ⟨m3, hm3, hs1⟩ :=
                  storeModel_ok_inv shortName patched s3 s1 h
                refine ⟨dictInsert m3 shortName patched, ?_, ?_⟩
                · rw [hs1]
                  exact getVal?_dictInsert_self s3.result ("models") _
                · rw [getVal?_dictInsert_self]
                  rfl

theorem resolveModel_avail (packs : List ExtractedPack) :
    ∀ (fuel : Nat) (ref : String) (s s1 : BState)
      (m : List (String × Json)),
    getVal? s.result ("models") = some (Json.obj m) →
    (firstWithEntry packs (modelRelOfRef ref)).isSome = true →
    resolveModel packs fuel (Json.str ref) s = .ok s1 →
    modelsHasKey s1 (shortKeyOfRef ref) := by
  intro fuel
  match fuel with
  | 0 =>
    intro ref s s1 m hm havail h
    simp [resolveModel] at h
  | fuel + 1 =>
    intro ref s s1 m hm havail h
    simp only [resolveModel] at h
    split at h
    · simp at h
    next mj hmj =>
      have hmjeq : mj = Json.obj m := Option.some.inj (hmj.symm.trans hm)
      subst hmjeq
      split at h
      next e hk => simp [jsonHasKeyE] at hk
      next hk =>
        simp at h
        simp only [jsonHasKeyE] at hk
        injection hk with hkk
        exact ⟨m, by rw [← h]; exact hm, hkk⟩
      next hk =>
        exact rmLoop_avail (resolveModel packs fuel) packs
          (shortKeyOfRef ref) (modelRelOfRef ref)
          (fun rj t t1 => resolveModel_modelsPres packs fuel rj t t1)
          packs s s1 m hm havail h

/-! ## C2: parent completeness -/

/-- C2: during a build, when `_resolve_model` successfully completes the
resolution of a reference that was not yet memoized, and the first pack
owning the model file declares a parent reference `p` in its document, and
`p` is itself resolvable in some supplied pack (its `models/<path>.json`
exists somewhere), then at completion both the parent's short key and the
child's short key are present in the models mapping: the parent is resolved
(recursively, before the child is stored) and surviving key monotonicity
keeps it present. -/
theorem c2_parent_completeness
    (packs : List ExtractedPack) (fuel : Nat) (ref : String)
    (s s1 : BState) (m D : List (String × Json)) (pk : ExtractedPack)
    (raw p : String)
    (hm : getVal? s.result ("models") = some (Json.obj m))
    (hmemo : (getVal? m (shortKeyOfRef ref)).isSome = false)
    (hfirst : firstWithEntry packs (modelRelOfRef ref) = some pk)
    (hentry : getEntry pk.entries (pk.mc ++ modelRelOfRef ref) =
      some (.file raw))
    (hparse : parseJson raw = some (Json.obj D))
    (hparent : getVal? D ("parent") = some (Json.str p))
    (havail : (firstWithEntry packs (modelRelOfRef p)).isSome = true)
    (hrun : resolveModel packs (fuel + 1) (Json.str ref) s = .ok s1) :
    modelsHasKey s1 (shortKeyOfRef p) ∧
      modelsHasKey s1 (shortKeyOfRef ref) := by
  simp only [resolveModel] at hrun
  split at hrun
  next h0 => rw [hm] at h0; cases h0
  next mj hmj =>
    have hmjeq : mj = Json.obj m := Option.some.inj (hmj.symm.trans hm)
    subst hmjeq
    split at hrun
    next e hk => simp [jsonHasKeyE] at hk
    next hk =>
      simp only [jsonHasKeyE] at hk
      injection hk with hkk
      rw [hmemo] at hkk
      cases hkk
    next hk =>
      obtain ⟨md, s2, cl2, s3, pt2, hparse2, hpar, hcl2, hct, hsp2, hstore⟩ :=
        rmLoop_found (resolveModel packs fuel) packs (shortKeyOfRef ref)
          (modelRelOfRef ref) packs s s1 pk raw hfirst hentry hrun
      have hmdeq : md = Json.obj D := Option.some.inj (hparse2.symm.trans hparse)
      subst hmdeq
      -- the parent step is a recursive resolution of `p`
      unfold rmParent at hpar
      simp only [jsonHasKeyE] at hpar
      rw [hparent] at hpar
      simp only [Option.isSome_some] at hpar
      simp only [jsonGetItem] at hpar
      rw [hparent] at hpar
      have hpkey : modelsHasKey s2 (shortKeyOfRef p) :=
        resolveModel_avail packs fuel p s s2 m hm havail hpar
      -- texture copying leaves `result` unchanged
      obtain ⟨m2, hm2, hk2⟩ := hpkey
      have hm3 : getVal? s3.result ("models") = some (Json.obj m2) := by
        rw [copyTexturesOf_result packs cl2 s2 s3 hct]
        exact hm2
      -- the store inserts the child's short key, preserving the parent's
      obtain ⟨m4, hm4, hs1⟩ :=
        storeModel_ok_inv (shortKeyOfRef ref) pt2 s3 s1 hstore
      have hm24 : m2 = m4 := by
        rw [hm4] at hm3
        injection hm3 with hh
        injection hh with hh2
        exact hh2.symm
      subst hm24
      constructor
      · refine ⟨dictInsert m2 (shortKeyOfRef ref) pt2, ?_, ?_⟩
        · rw [hs1]
          exact getVal?_dictInsert_self s3.result ("models") _
        · exact getVal?_dictInsert_isSome m2 (shortKeyOfRef ref)
            (shortKeyOfRef p) pt2 hk2
      · refine ⟨dictInsert m2 (shortKeyOfRef ref) pt2, ?_, ?_⟩
        · rw [hs1]
          exact getVal?_dictInsert_self s3.result ("models") _
        · rw [getVal?_dictInsert_self]
          rfl

theorem c2_witness :
    modelsHasKey (BState.mk [("models", Json.obj [("par", Json.obj []),
      ("child", Json.obj [("parent", Json.str ("block/par"))])])] [] [])
      (shortKeyOfRef ("block/par")) ∧
    modelsHasKey (BState.mk [("models", Json.obj [("par", Json.obj []),
      ("child", Json.obj [("parent", Json.str ("block/par"))])])] [] [])
      (shortKeyOfRef ("block/child")) :=
  c2_parent_completeness c2packs 1 ("block/child") initState
    (BState.mk [("models", Json.obj [("par", Json.obj []),
      ("child", Json.obj [("parent", Json.str ("block/par"))])])] [] [])
    [] [("parent", Json.str ("minecraft:block/par"))]
    c2pack0 c2childRaw ("minecraft:block/par")
    rfl rfl rfl rfl rfl rfl rfl rfl

/-! ## Absence lemmas and key-growth bounds (for C9) -/

theorem getVal?_dictInsert_isSome_inv (d : List (String × Json))
    (kk k : String) (v : Json)
    (h : (getVal? (dictInsert d kk v) k).isSome = true) :
    (getVal? d k).isSome = true ∨ k = kk := by
  by_cases hk : k = kk
  · exact Or.inr hk
  · rw [getVal?_dictInsert_ne d kk k v hk] at h
    exact Or.inl h

theorem rbLoop_absent (packs : List ExtractedPack) (fuel : Nat)
    (name : String) :
    ∀ (rest : List ExtractedPack) (s : BState),
    firstWithEntry rest (bsRelSegs name) = none →
    rbLoop packs fuel name rest s = .ok s := by
  intro rest
  induction rest with
  | nil => intro s _; simp [rbLoop]
  | cons pk rest ih =>
    intro s habs
    simp only [firstWithEntry] at habs
    simp only [rbLoop]
    cases hge : getEntry pk.entries (pk.mc ++ bsRelSegs name) with
    | none =>
      rw [hge] at habs
      exact ih s habs
    | some t => rw [hge] at habs; cases habs

theorem rmLoop_absent (recur : Json → BState → Except Err BState)
    (packs : List ExtractedPack) (shortName : String) (rel : List String) :
    ∀ (rest : List ExtractedPack) (s : BState),
    firstWithEntry rest rel = none →
    rmLoop recur packs shortName rel rest s = .ok s := by
  intro rest
  induction rest with
  | nil => intro s _; simp [rmLoop]
  | cons pk rest ih =>
    intro s habs
    simp only [firstWithEntry] at habs
    simp only [rmLoop]
    cases hge : getEntry pk.entries (pk.mc ++ rel) with
    | none =>
      rw [hge] at habs
      exact ih s habs
    | some t => rw [hge] at habs; cases habs

theorem ctLoop_absent (ref : String) :
    ∀ (rest : List ExtractedPack) (s : BState),
    firstWithEntry rest (texRelSegs ref) = none →
    ctLoop rest ref s = .ok s := by
  intro rest
  induction rest with
  | nil => intro s _; simp [ctLoop]
  | cons pk rest ih =>
    intro s habs
    simp only [firstWithEntry] at habs
    simp only [ctLoop]
    cases hge : getEntry pk.entries (pk.mc ++ texRelSegs ref) with
    | none =>
      rw [hge] at habs
      exact ih s habs
    | some t => rw [hge] at habs; cases habs

/-- Keys added to the top-level result by model resolution: only "models". -/
theorem storeModel_keys (shortName : String) (v : Json) (s s1 : BState)
    (h : storeModel shortName v s = .ok s1) :
    ∀ k, (getVal? s1.result k).isSome = true →
      (getVal? s.result k).isSome = true ∨ k = "models" := by
  obtain ⟨m, hm, hs1⟩ := storeModel_ok_inv shortName v s s1 h
  intro k hk
  rw [hs1] at hk
  exact getVal?_dictInsert_isSome_inv s.result ("models") k _ hk

theorem rmParent_keys (recur : Json → BState → Except Err BState)
    (hrec : ∀ rj t t1, recur rj t = .ok t1 →
      ∀ k, (getVal? t1.result k).isSome = true →
        (getVal? t.result k).isSome = true ∨ k = "models")
    (modelData : Json) (s s1 : BState)
    (h : rmParent recur modelData s = .ok s1) :
    ∀ k, (getVal? s1.result k).isSome = true →
      (getVal? s.result k).isSome = true ∨ k = "models" := by
  unfold rmParent at h
  split at h
  · simp at h
  · simp at h
    rw [← h]
    exact fun k hk => Or.inl hk
  · split at h
    · simp at h
    next pj hg => exact hrec pj s s1 h

theorem rmLoop_keys (recur : Json → BState → Except Err BState)
    (packs : List ExtractedPack) (shortName : String) (rel : List String)
    (hrec : ∀ rj t t1, recur rj t = .ok t1 →
      ∀ k, (getVal? t1.result k).isSome = true →
        (getVal? t.result k).isSome = true ∨ k = "models") :
    ∀ (rest : List ExtractedPack) (s s1 : BState),
    rmLoop recur packs shortName rel rest s = .ok s1 →
    ∀ k, (getVal? s1.result k).isSome = true →
      (getVal? s.result k).isSome = true ∨ k = "models" := by
  intro rest
  induction rest with
  | nil =>
    intro s s1 h
    simp [rmLoop] at h
    rw [← h]
    exact fun k hk => Or.inl hk
  | cons pk rest ih =>
    intro s s1 h
    simp only [rmLoop] at h
    split at h
    next hge => exact ih s s1 h
    next es hge => simp at h
    next raw hge =>
      split at h
      · simp at h
      next modelData hparse =>
        split at h
        next e hpar => simp at h
        next s2 hpar =>
          split at h
          · simp at h
          next cleaned hclean =>
            split at h
            next e hct => simp at h
            next s3 hct =>
              split at h
              next e hsp => simp at h
              next patched hsp =>
                intro k hk
                rcases storeModel_keys shortName patched s3 s1 h k hk with
                  h2 | h2
                · rw [copyTexturesOf_result packs cleaned s2 s3 hct] at h2
                  exact rmParent_keys recur hrec modelData s s2 hpar k h2
                · exact Or.inr h2

theorem resolveModel_keys (packs : List ExtractedPack) :
    ∀ (fuel : Nat) (refJ : Json) (s s1 : BState),
    resolveModel packs fuel refJ s = .ok s1 →
    ∀ k, (getVal? s1.result k).isSome = true →
      (getVal? s.result k).isSome = true ∨ k = "models" := by
  intro fuel
  induction fuel with
  | zero =>
    intro refJ s s1 h
    simp [resolveModel] at h
  | succ fuel ih =>
    intro refJ s s1 h
    simp only [resolveModel] at h
    split at h
    next ref =>
      split at h
      · simp at h
      next mj hmj =>
        split at h
        next e hk => simp at h
        next hk =>
          simp at h
          rw [← h]
          exact fun k hk2 => Or.inl hk2
        next hk =>
          exact rmLoop_keys (resolveModel packs fuel) packs
            (shortKeyOfRef ref) (modelRelOfRef ref)
            (fun rj t t1 => ih rj t t1) packs s s1 h
    next => simp at h

theorem rbLoop_keys (packs : List ExtractedPack) (fuel : Nat)
    (name : String) :
    ∀ (rest : List ExtractedPack) (s s1 : BState),
    rbLoop packs fuel name rest s = .ok s1 →
    ∀ k, (getVal? s1.result k).isSome = true →
      (getVal? s.result k).isSome = true ∨ k = "models" ∨
      (k = name ∧ firstWithEntry rest (bsRelSegs name) ≠ none) := by
  intro rest
  induction rest with
  | nil =>
    intro s s1 h
    simp [rbLoop] at h
    rw [← h]
    exact fun k hk => Or.inl hk
  | cons pk rest ih =>
    intro s s1 h
    simp only [rbLoop] at h
    split at h
    next hge =>
      intro k hk
      rcases ih s s1 h k hk with h2 | h2 | ⟨h2, h3⟩
      · exact Or.inl h2
      · exact Or.inr (Or.inl h2)
      · refine Or.inr (Or.inr ⟨h2, ?_⟩)
        simp only [firstWithEntry]
        rw [hge]
        exact h3
    next es hge => simp at h
    next raw hge =>
      split at h
      · simp at h
      next bsDoc hparse =>
        split at h
        next e hrefs => simp at h
        next refs hrefs =>
          split at h
          next e hfold => simp at h
          next s2 hfold =>
            split at h
            next e hsh => simp at h
            next shortened hsh =>
              simp at h
              intro k hk
              rw [← h] at hk
              rcases getVal?_dictInsert_isSome_inv s2.result name k
                shortened hk with h2 | h2
              · have hkeys : (getVal? s.result k).isSome = true ∨
                    k = "models" := by
                  refine foldE_pres_mem
                    (fun t => (getVal? t.result k).isSome = true →
                      (getVal? s.result k).isSome = true ∨ k = "models")
                    _ refs ?_ s s2 (fun hh => Or.inl hh) hfold h2
                  intro a _ t t1 hP hstep hk1
                  rcases resolveModel_keys packs fuel a t t1 hstep k hk1 with
                    h3 | h3
                  · exact hP h3
                  · exact Or.inr h3
                rcases hkeys with h3 | h3
                · exact Or.inl h3
                · exact Or.inr (Or.inl h3)
              · refine Or.inr (Or.inr ⟨h2, ?_⟩)
                simp only [firstWithEntry]
                rw [hge]
                simp

theorem foldE_blocks_absent (packs : List ExtractedPack) (fuel : Nat)
    (name : String) (hname : name ≠ "models")
    (habs : firstWithEntry packs (bsRelSegs name) = none) :
    ∀ (bs : List String) (s s1 : BState),
    (getVal? s.result name).isSome = false →
    foldE (resolveBlock packs fuel) bs s = .ok s1 →
    (getVal? s1.result name).isSome = false := by
  intro bs
  induction bs with
  | nil =>
    intro s s1 h0 h
    simp [foldE] at h
    rwa [← h]
  | cons b bs ih =>
    intro s s1 h0 h
    simp only [foldE] at h
    cases hstep : resolveBlock packs fuel b s with
    | error e => rw [hstep] at h; simp at h
    | ok t =>
      rw [hstep] at h
      refine ih t s1 ?_ h
      by_contra hcon
      simp only [Bool.not_eq_false] at hcon
      rcases rbLoop_keys packs fuel b packs s t hstep name hcon
        with h2 | h2 | ⟨h2, h3⟩
      · rw [h0] at h2; cases h2
      · exact hname h2
      · rw [← h2] at h3
        exact h3 habs

/-! ## C9 counterexample and amended theorem -/

/-- C9 counterexample: requesting the block name `models`, absent from every
supplied pack, completes the build successfully — but the key `models` is
*not* omitted from the output: it is always present (holding the models
mapping), so "the corresponding key is simply omitted" fails for this one
block name. -/
theorem c9_counterexample :
    (buildTextureCache [("models")] [c9pack] 1).outcome =
      .ok (BState.mk [("models", Json.obj [])] [] []) ∧
    (getVal? [("models", Json.obj [])] ("models")).isSome = true :=
  ⟨rfl, rfl⟩

/-- C9 amended: a block name (other than the reserved top-level key
`models`), model reference, or texture reference that is absent from every
supplied pack is handled without error and without effect: block resolution
and the unmemoized model resolution return the state unchanged, texture
copying copies nothing, and the absent block's key is omitted from the
final result of a successful build.  (For the block name `models` the
output always contains that key — it holds the models mapping; see
`c9_counterexample`.) -/
theorem c9_absence_tolerance :
    (∀ (packs : List ExtractedPack) (fuel : Nat) (name : String)
       (s : BState),
       firstWithEntry packs (bsRelSegs name) = none →
       resolveBlock packs fuel name s = .ok s) ∧
    (∀ (packs : List ExtractedPack) (fuel : Nat) (ref : String)
       (s : BState) (mj : Json),
       getVal? s.result ("models") = some mj →
       jsonHasKeyE mj (shortKeyOfRef ref) = .ok false →
       firstWithEntry packs (modelRelOfRef ref) = none →
       resolveModel packs (fuel + 1) (Json.str ref) s = .ok s) ∧
    (∀ (packs : List ExtractedPack) (ref : String) (s : BState),
       firstWithEntry packs (texRelSegs ref) = none →
       copyTexture packs ref s = .ok s) ∧
    (∀ (names : List String) (rps : List ResourcePackSrc) (fuel : Nat)
       (s : BState) (name : String),
       (buildTextureCache names rps fuel).outcome = .ok s →
       name ≠ "models" →
       firstWithEntry (extractPacks rps 0).2.1 (bsRelSegs name) = none →
       (getVal? s.result name).isSome = false) := by
  refine ⟨?_, ?_, ?_, ?_⟩
  · intro packs fuel name s habs
    exact rbLoop_absent packs fuel name packs s habs
  · intro packs fuel ref s mj hm hk habs
    simp [resolveModel, hm, hk]
    exact rmLoop_absent (resolveModel packs fuel) packs
      (shortKeyOfRef ref) (modelRelOfRef ref) packs s habs
  · intro packs ref s habs
    unfold copyTexture
    split
    · rfl
    · exact ctLoop_absent ref packs s habs
  · intro names rps fuel s name hbuild hname habs
    unfold buildTextureCache at hbuild
    split at hbuild
    next created reg extErr heq =>
      rw [heq] at habs
      split at hbuild
      · simp at hbuild
      · split at hbuild
        next e hres => simp at hbuild
        next s2 hres =>
          simp at hbuild
          rw [← hbuild]
          unfold resolveBlocks at hres
          refine foldE_blocks_absent reg fuel name hname habs
            (sortNames names) initState s2 ?_ hres
          have hne : ¬("models" = name) := fun hh => hname hh.symm
          simp [initState, getVal?, hne]

theorem c9_witness :
    resolveBlock c9reg 1 ("stone") initState = .ok initState :=
  c9_absence_tolerance.1 c9reg 1 ("stone") initState rfl
